import Mathlib

/-!
Verification of the dialogue-transcript build scripts of the
`hinahina-vr.github.io` repository.

The development shallowly embeds the Node build scripts
(`scripts/build-dialogue.mjs` and the video-script exporter) as pure Lean
functions over `String` / `List Char` and proves or refutes the frozen
specification claims about them.

Modelling conventions:
  * JavaScript strings are Lean `String`s; per-character work happens on
    `String.data : List Char`.
  * The regex character class `\s` is modelled by `isJsWs` (the ASCII
    whitespace characters); `\w` by `isWordChar` (`[A-Za-z0-9_]`).
  * Line splitting `split(/\r?\n/)` is `splitNl`, which splits on `"\n"`
    and `"\r\n"` exactly as the regex does.
  * Each regex used by the scripts is small and anchored; each is modelled
    by a dedicated total function whose behaviour (including greedy / lazy
    backtracking) is reproduced explicitly.
-/

namespace HinaSite

/-- Whitespace as matched by the regex class `\s` (ASCII part). -/
def isJsWs (c : Char) : Bool :=
  c = ' ' || c = '\t' || c = '\n' || c = '\r' || c = '\x0b' || c = '\x0c'

/-- Word characters as matched by the regex class `\w`: `[A-Za-z0-9_]`. -/
def isWordChar (c : Char) : Bool :=
  ('a' ≤ c && c ≤ 'z') || ('A' ≤ c && c ≤ 'Z') || ('0' ≤ c && c ≤ '9') || c = '_'

/-- Both-ends whitespace trimming on a character list (JS `String.prototype.trim`). -/
def trimChars (l : List Char) : List Char :=
  ((l.dropWhile isJsWs).reverse.dropWhile isJsWs).reverse

/-- JS `str.trim()`. -/
def jsTrim (s : String) : String :=
  String.mk (trimChars s.data)

/-- Helper for `splitNl`: accumulates the current line (reversed). -/
def splitNlAux : List Char → List Char → List String
  | [], acc => [String.mk acc.reverse]
  | '\r' :: '\n' :: cs, acc => String.mk acc.reverse :: splitNlAux cs []
  | '\n' :: cs, acc => String.mk acc.reverse :: splitNlAux cs []
  | c :: cs, acc => splitNlAux cs (c :: acc)

/-- JS `str.split(/\r?\n/)`. -/
def splitNl (s : String) : List String :=
  splitNlAux s.data []

/-- Join lines with `"\n"` (inverse of `splitNl` on newline-free lines). -/
def unlines : List String → String
  | [] => ""
  | [x] => x
  | x :: xs => x ++ "\n" ++ unlines xs

/-- Match of `/^##\s+(.+)$/` (section heading): returns the captured title. -/
def headingMatch (l : String) : Option String :=
  match l.data with
  | '#' :: '#' :: rest =>
    let w := rest.takeWhile isJsWs
    let r := rest.dropWhile isJsWs
    if r ≠ [] then
      if w ≠ [] then some (String.mk r) else none
    else
      -- `rest` is all whitespace: `\s+` backtracks so that `(.+)` takes the
      -- final whitespace character; needs at least two characters.
      match w.getLast? with
      | some c => if 2 ≤ w.length then some (String.mk [c]) else none
      | none => none
  | _ => none

/-- Lazy scan for `(.+?)\*\*:`: returns the shortest non-empty capture
followed by the literal `**:`, together with the remaining characters. -/
def speakerScan : List Char → List Char → Option (List Char × List Char)
  | _, [] => none
  | acc, c :: tl =>
    if tl.take 3 = ['*', '*', ':'] then some (acc ++ [c], tl.drop 3)
    else speakerScan (acc ++ [c]) tl

/-- Match of `/^\*\*(.+?)\*\*:\s*(.*)$/` (speaker line): returns the speaker
name and the text after the colon with leading whitespace removed (the
`\s*` before the second capture group). -/
def speakerMatch (l : String) : Option (String × String) :=
  match l.data with
  | '*' :: '*' :: rest =>
    match speakerScan [] rest with
    | some (name, tail) => some (String.mk name, String.mk (tail.dropWhile isJsWs))
    | none => none
  | _ => none

/-- Does the list contain the adjacent pair `](`? -/
def containsCloseOpen : List Char → Bool
  | ']' :: '(' :: _ => true
  | _ :: tl => containsCloseOpen tl
  | [] => false

/-- Test of `/^!\[.*\]\(.*\)$/` on an (already trimmed) line: the line is
`![` ++ a ++ `](` ++ b ++ `)` for some `a`, `b` without newlines. -/
def isImageLine (t : String) : Bool :=
  match t.data with
  | '!' :: '[' :: rest =>
    match rest.getLast? with
    | some ')' => containsCloseOpen rest.dropLast
    | _ => false
  | _ => false

/-- JS `trimmed.replace(/^>\s*/, "")`: drop one leading `>` and the
whitespace run after it. -/
def dropQuoteMark (t : String) : String :=
  match t.data with
  | '>' :: r => String.mk (r.dropWhile isJsWs)
  | _ => t

/-- Block of a parsed dialogue section (`scripts/build-dialogue.mjs`):
a speech block (`{speaker, paragraphs}`) or a tagged `image` / `table` /
`quote` block. -/
inductive Block
  | speech (speaker : String) (paragraphs : List String)
  | image (raw : String)
  | table (lines : List String)
  | quote (text : String)
deriving DecidableEq, Repr

/-- A heading-delimited section: title plus ordered blocks. -/
structure Sect where
  title : String
  blocks : List Block
deriving DecidableEq, Repr

/-- Parser state of `parseDialogue` in `build-dialogue.mjs`: finished
sections, the section currently open (`currentSection`), the last speaker
(`currentSpeaker`) and the open speech block (`currentBlock`). -/
structure PState where
  done : List Sect
  cur : Option Sect
  curSpeaker : Option String
  curBlock : Option (String × List String)
deriving DecidableEq, Repr

/-- Initial parser state. -/
def initPState : PState := ⟨[], none, none, none⟩

/-- `if (currentBlock && currentSection) currentSection.blocks.push(currentBlock); currentBlock = null`. -/
def flushCur (st : PState) : PState :=
  match st.curBlock, st.cur with
  | some (sp, ps), some sec =>
    { st with cur := some { sec with blocks := sec.blocks ++ [Block.speech sp ps] },
              curBlock := none }
  | _, _ => { st with curBlock := none }

/-- Push a block onto the open section, if one is open. -/
def pushB (c : Option Sect) (b : Block) : Option Sect :=
  c.map fun s => { s with blocks := s.blocks ++ [b] }

/-- Table-line handling: append to the last block if it is a table,
otherwise start a new table block (only when a section is open). -/
def addTableLine (c : Option Sect) (t : String) : Option Sect :=
  match c with
  | none => none
  | some sec =>
    match sec.blocks.getLast? with
    | some (Block.table ls) =>
      some { sec with blocks := sec.blocks.dropLast ++ [Block.table (ls ++ [t])] }
    | _ => some { sec with blocks := sec.blocks ++ [Block.table [t]] }

/-- One line of the `parseDialogue` loop of `build-dialogue.mjs`, with the
source's classification order: heading, speaker, blank, image, table,
quote, speech continuation (plain lines outside a speech block are
dropped). -/
def stepLine (st : PState) (line : String) : PState :=
  match headingMatch line with
  | some title =>
    { done := (flushCur st).done ++ (flushCur st).cur.toList, cur := some ⟨title, []⟩,
      curSpeaker := none, curBlock := none }
  | none =>
    match speakerMatch line with
    | some (name, rest) =>
      ⟨(flushCur st).done, (flushCur st).cur, some name,
        some (name, if jsTrim rest = "" then [] else [jsTrim rest])⟩
    | none =>
      if jsTrim line = "" then st
      else
        if isImageLine (jsTrim line) then
          ⟨(flushCur st).done, pushB (flushCur st).cur (Block.image (jsTrim line)),
            (flushCur st).curSpeaker, (flushCur st).curBlock⟩
        else if (jsTrim line).data.head? = some '|' then
          ⟨(flushCur st).done, addTableLine (flushCur st).cur (jsTrim line),
            (flushCur st).curSpeaker, (flushCur st).curBlock⟩
        else if (jsTrim line).data.head? = some '>' then
          ⟨(flushCur st).done,
            pushB (flushCur st).cur (Block.quote (dropQuoteMark (jsTrim line))),
            (flushCur st).curSpeaker, (flushCur st).curBlock⟩
        else
          match st.curBlock with
          | some (sp, ps) => { st with curBlock := some (sp, ps ++ [jsTrim line]) }
          | none => st

/-- Final sections of a parser state: flush the open speech block, then the
finished sections followed by the open one. -/
def finishP (st : PState) : List Sect :=
  (flushCur st).done ++ (flushCur st).cur.toList

/-- `parseDialogue` of `build-dialogue.mjs` on a pre-split line list. -/
def parseLines (ls : List String) : List Sect :=
  finishP (ls.foldl stepLine initPState)

/-- `parseDialogue` of `build-dialogue.mjs`. -/
def parseDialogue (body : String) : List Sect :=
  parseLines (splitNl body)

/-- JS `s.replace(c, r)` with a global single-character pattern: every
occurrence of the character `c` is replaced by the string `r`. -/
def replaceChar (l : List Char) (c : Char) (r : List Char) : List Char :=
  l.flatMap fun ch => if ch = c then r else [ch]

/-- Lazy scan for `(.+?)\*\*`: shortest non-empty capture followed by the
literal `**`, plus the remaining characters. -/
def boldScan : List Char → List Char → Option (List Char × List Char)
  | _, [] => none
  | acc, c :: tl =>
    if tl.take 2 = ['*', '*'] then some (acc ++ [c], tl.drop 2)
    else boldScan (acc ++ [c]) tl

/-- The remainder returned by `boldScan` is no longer than its input. -/
theorem boldScan_le : ∀ acc cs content tl, boldScan acc cs = some (content, tl) →
    tl.length ≤ cs.length := by
  intro acc cs
  induction cs generalizing acc with
  | nil => intro _ _ h; simp [boldScan] at h
  | cons c tl0 ih =>
    intro content tl' h
    simp only [boldScan] at h
    split at h
    · cases h
      simp only [List.length_drop, List.length_cons]
      omega
    · exact Nat.le_succ_of_le (ih _ _ _ h)

/-- Global replace of `/\*\*(.+?)\*\*/g` by `<strong>$1</strong>`,
fuelled: every step consumes at least one character (`boldScan_le`), so a
fuel equal to the input length is never exhausted. -/
def boldReplF : Nat → List Char → List Char
  | 0, l => l
  | _, [] => []
  | fuel + 1, '*' :: '*' :: rest =>
    match boldScan [] rest with
    | some (content, tl) =>
      "<strong>".data ++ content ++ "</strong>".data ++ boldReplF fuel tl
    | none => '*' :: '*' :: boldReplF fuel rest
  | fuel + 1, c :: rest => c :: boldReplF fuel rest

/-- Global replace of `/\*\*(.+?)\*\*/g` by `<strong>$1</strong>`. -/
def boldRepl (l : List Char) : List Char :=
  boldReplF l.length l

/-- Scan for one match of `!\[([^\]]*)\]\(([^)]+)\)` at the current
position: returns the `alt` capture, the `src` capture and the remaining
characters. -/
def imgScan (rest : List Char) : Option (List Char × List Char × List Char) :=
  let alt := rest.takeWhile (· ≠ ']')
  match rest.dropWhile (· ≠ ']') with
  | ']' :: '(' :: r2 =>
    let src := r2.takeWhile (· ≠ ')')
    match r2.dropWhile (· ≠ ')') with
    | ')' :: r3 => if src = [] then none else some (alt, src, r3)
    | _ => none
  | _ => none

/-- A successful `imgScan` strictly consumes input. -/
theorem imgScan_lt : ∀ rest alt src r3, imgScan rest = some (alt, src, r3) →
    r3.length < rest.length := by
  intro rest alt src r3 h
  simp only [imgScan] at h
  split at h
  case h_1 r2 heq =>
    have h1 := (List.dropWhile_suffix (l := rest) (fun c => decide (c ≠ ']'))).length_le
    rw [heq] at h1
    simp only [List.length_cons] at h1
    split at h
    case h_1 r3' heq2 =>
      have h2 := (List.dropWhile_suffix (l := r2) (fun c => decide (c ≠ ')'))).length_le
      rw [heq2] at h2
      simp only [List.length_cons] at h2
      split at h
      · exact absurd h (by simp)
      · cases h
        omega
    case h_2 => exact absurd h (by simp)
  case h_2 => exact absurd h (by simp)

/-- The replacement text `<img src="$2" alt="$1" style="...">`. -/
def imgTag (alt src : List Char) : List Char :=
  "<img src=\"".data ++ src ++ "\" alt=\"".data ++ alt
    ++ "\" style=\"max-width:100%;margin:12px 0;border-radius:4px;\">".data

/-- Global replace of `/!\[([^\]]*)\]\(([^)]+)\)/g` by an `<img>` element,
fuelled: every step consumes at least one character (`imgScan_lt`), so a
fuel equal to the input length is never exhausted. -/
def imgReplF : Nat → List Char → List Char
  | 0, l => l
  | _, [] => []
  | fuel + 1, '!' :: '[' :: rest =>
    match imgScan rest with
    | some (alt, src, r3) => imgTag alt src ++ imgReplF fuel r3
    | none => '!' :: imgReplF fuel ('[' :: rest)
  | fuel + 1, c :: rest => c :: imgReplF fuel rest

/-- Global replace of `/!\[([^\]]*)\]\(([^)]+)\)/g` by an `<img>` element. -/
def imgRepl (l : List Char) : List Char :=
  imgReplF l.length l

/-- The three sequential escape replaces of `renderInline`:
`&` to `&amp;`, then `<` to `&lt;`, then `>` to `&gt;`. -/
def escape3 (l : List Char) : List Char :=
  replaceChar (replaceChar (replaceChar l '&' "&amp;".data) '<' "&lt;".data) '>' "&gt;".data

/-- `renderInline` of `build-dialogue.mjs`: escape `&`, `<`, `>`, then the
bold substitution, then the Markdown-image substitution. -/
def renderInline (str : String) : String :=
  String.mk (imgRepl (boldRepl (escape3 str.data)))

/-- `escapeHtml` of `build-dialogue.mjs` (an alias of `renderInline`). -/
def escapeHtml (str : String) : String :=
  renderInline str

/-- `speakerClass` of `build-dialogue.mjs`. -/
def speakerClass (name : String) : String :=
  if name = "ワディー" then "waddy"
  else if name = "ひな" then "hina"
  else "other"

/-- Helper for `jsSplitChar`: accumulates the current field (reversed). -/
def splitCharAux (sep : Char) : List Char → List Char → List String
  | [], acc => [String.mk acc.reverse]
  | c :: cs, acc =>
    if c = sep then String.mk acc.reverse :: splitCharAux sep cs []
    else splitCharAux sep cs (c :: acc)

/-- JS `str.split(sep)` for a single-character separator. -/
def jsSplitChar (s : String) (sep : Char) : List String :=
  splitCharAux sep s.data []

/-- Cell extraction of `renderTable`:
`line.split('|').filter((_, j, a) => j > 0 && j < a.length - 1).map(c => c.trim())`
keeps exactly the components at positions `1 .. length - 2`. -/
def cellsOf (line : String) : List String :=
  (((jsSplitChar line '|').drop 1).dropLast).map jsTrim

/-- Test of `/^[-:]+$/` on one (trimmed) cell. -/
def isSepCell (c : String) : Bool :=
  !c.data.isEmpty && c.data.all (fun ch => ch = '-' || ch = ':')

/-- Separator-row test: `cells.every(c => /^[-:]+$/.test(c))`. -/
def isSepRow (cells : List String) : Bool :=
  cells.all isSepCell

/-- Style attribute used for `th` cells in `renderTable`. -/
def thStyle : String :=
  "style=\"border-bottom:1px solid #555;padding:4px 8px;color:#e0c8a0;text-align:left;\""

/-- Style attribute used for `td` cells in `renderTable`. -/
def tdStyle : String :=
  "style=\"padding:4px 8px;border-bottom:1px solid #333;\""

/-- Concatenation of a list of strings (JS `array.join("")`). -/
def concatStrs : List String → String
  | [] => ""
  | x :: xs => x ++ concatStrs xs

/-- Join with a separator (JS `array.join(sep)`). -/
def joinSep (sep : String) : List String → String
  | [] => ""
  | [x] => x
  | x :: xs => x ++ sep ++ joinSep sep xs

/-- One rendered cell `<tag style>…</tag>`. -/
def cellHtml (tag style c : String) : String :=
  "<" ++ tag ++ " " ++ style ++ ">" ++ renderInline c ++ "</" ++ tag ++ ">"

/-- One rendered table row; `isHead` is the `i === 0` test of the source. -/
def rowHtml (isHead : Bool) (cells : List String) : String :=
  "<tr>"
    ++ concatStrs (cells.map (cellHtml (if isHead then "th" else "td")
        (if isHead then thStyle else tdStyle)))
    ++ "</tr>"

/-- Row loop of `renderTable`, indexed from `i`. -/
def tableRows : Nat → List String → String
  | _, [] => ""
  | i, l :: tl =>
    let cells := cellsOf l
    (if isSepRow cells then "" else rowHtml (i = 0) cells) ++ tableRows (i + 1) tl

/-- `renderTable` of `build-dialogue.mjs`. -/
def renderTable (lines : List String) : String :=
  "<table style=\"width:100%;border-collapse:collapse;margin:12px 0;font-size:13px;\">"
    ++ tableRows 0 lines ++ "</table>"

/-- Rendering of one block in the section loop of `main`
(`build-dialogue.mjs`, the per-block branch on `block.type`). -/
def renderBlock : Block → String
  | Block.table ls => renderTable ls ++ "\n"
  | Block.image raw =>
    "<div style=\"text-align:center;margin:16px 0;\">" ++ renderInline raw ++ "</div>\n"
  | Block.quote text =>
    "<blockquote style=\"border-left:3px solid #e0c8a0;margin:12px 0;padding:4px 16px;color:#aaa;font-style:italic;\">"
      ++ renderInline text ++ "</blockquote>\n"
  | Block.speech sp ps =>
    "<div class=\"talk-" ++ speakerClass sp ++ "\"><span class=\"talk-name\">"
      ++ escapeHtml sp ++ "</span>："
      ++ joinSep "<br>\n" (ps.map escapeHtml) ++ "</div>\n"

/-- Rendering of one section in the section loop of `main`: the divider
line followed by the rendered blocks. -/
def renderSection (sec : Sect) : String :=
  "\n<div class=\"section-divider\">― " ++ escapeHtml sec.title ++ " ―</div>\n"
    ++ concatStrs (sec.blocks.map renderBlock)

/-- The section loop of `main` in `build-dialogue.mjs` (the HTML fragment
produced for a parsed section list). -/
def sectionsHtml (secs : List Sect) : String :=
  concatStrs (secs.map renderSection)

/-- Spec-side definition (claim C1 wording): the escape of one of "the four
HTML-sensitive characters" `&`, `<`, `>`, `"` as a simultaneous character
map. -/
def htmlEscape4 (c : Char) : List Char :=
  if c = '&' then "&amp;".data
  else if c = '<' then "&lt;".data
  else if c = '>' then "&gt;".data
  else if c = '"' then "&quot;".data
  else [c]

/-- Spec-side definition (claim C1 wording): escape the four HTML-sensitive
characters first, then apply the bold and image substitutions. -/
def renderInlineSpec4 (s : String) : String :=
  String.mk (imgRepl (boldRepl (s.data.flatMap htmlEscape4)))

/-- Spec-side definition (amended claim C1): the escape of one of the three
characters `&`, `<`, `>` actually handled by the source, as a simultaneous
character map. -/
def htmlEscape3 (c : Char) : List Char :=
  if c = '&' then "&amp;".data
  else if c = '<' then "&lt;".data
  else if c = '>' then "&gt;".data
  else [c]

/-- Spec-side definition (amended claim C1): escape the three characters in
one pass, then apply the bold substitution, then the image substitution. -/
def renderInlineSpec3 (s : String) : String :=
  String.mk (imgRepl (boldRepl (s.data.flatMap htmlEscape3)))

/-- Spec-side definition (claim C5 wording): render the remaining
(non-separator) cell rows with the first remaining row as the header row
and all other remaining rows as body rows. -/
def specRemainingRows : List (List String) → String
  | [] => ""
  | r :: rs => rowHtml true r ++ concatStrs (rs.map (rowHtml false))

/-- Spec-side definition (claim C5 wording): split each row into cells,
discard separator rows, treat the first remaining row as the header row,
render the rest as body rows. -/
def renderTableSpec (lines : List String) : String :=
  "<table style=\"width:100%;border-collapse:collapse;margin:12px 0;font-size:13px;\">"
    ++ specRemainingRows ((lines.map cellsOf).filter (fun cs => !isSepRow cs))
    ++ "</table>"

/-- Remove one leading byte-order mark (JS `raw.replace(/^\uFEFF?/, "")`). -/
def stripBOM (s : String) : String :=
  match s.data with
  | '\uFEFF' :: r => String.mk r
  | _ => s

/-- Scan of the lines after the first front-matter content line for the
closing delimiter: the first `---` line that still has a line after it
(the closing `---` of the regex must be followed by a newline). Returns
the remaining front-matter lines and the body lines. -/
def fmSplit : List String → Option (List String × List String)
  | [] => none
  | [_] => none
  | x :: y :: tl =>
    if x = "---" then some ([], y :: tl)
    else (fmSplit (y :: tl)).map fun p => (x :: p.1, p.2)

/-- Match of `/^(\w+)\s*:\s*(.+)$/` on one front-matter line, together with
the `.trim()` the source applies to the captured value. -/
def parseKV (line : String) : Option (String × String) :=
  if line.data.takeWhile isWordChar = [] then none
  else
    match (line.data.dropWhile isWordChar).dropWhile isJsWs with
    | ':' :: rest =>
      if rest = [] then none
      else some (String.mk (line.data.takeWhile isWordChar), jsTrim (String.mk rest))
    | _ => none

/-- JS object property assignment `meta[kv[1]] = kv[2].trim()` on an
association list: an existing key keeps its position and gets the new
value. -/
def setKey : List (String × String) → String → String → List (String × String)
  | [], k, v => [(k, v)]
  | (k', v') :: tl, k, v =>
    if k' = k then (k, v) :: tl else (k', v') :: setKey tl k v

/-- Body of the front-matter loop: ignore lines that do not match the
`key: value` pattern. -/
def addMeta (m : List (String × String)) (line : String) : List (String × String) :=
  match parseKV line with
  | some (k, v) => setKey m k v
  | none => m

/-- Lookup in the meta association list (JS `meta[k]`). -/
def lookupMeta (k : String) : List (String × String) → Option String
  | [] => none
  | (k', v) :: tl => if k' = k then some v else lookupMeta k tl

/-- `parseFrontmatter` of `build-dialogue.mjs` (the video-script exporter
holds an identical copy). The anchored regex
`^---\r?\n([\s\S]*?)\r?\n---\r?\n([\s\S]*)$` with its lazy first group is
modelled on the line structure: an opening `---` line, at least one
front-matter line, then the first closing `---` line that is followed by a
newline; everything after it is the body. -/
def parseFrontmatter (raw : String) : List (String × String) × String :=
  match splitNl (stripBOM raw) with
  | "---" :: first :: rest =>
    match fmSplit rest with
    | some (fmTail, bodyLines) =>
      ((first :: fmTail).foldl addMeta [], unlines bodyLines)
    | none => ([], stripBOM raw)
  | _ => ([], stripBOM raw)

/-- A line with no line-break characters. -/
def noNl (l : String) : Bool :=
  l.data.all fun c => !(c = '\n' || c = '\r')

/-! ### Video-script exporter (the second file of `build-diary-hina.mjs`) -/

/-- Block variant of the exporter's `parseDialogue` (adds tagged `speech`
and free-standing `text` blocks). -/
inductive BlockV
  | speech (speaker : String) (paragraphs : List String)
  | image (raw : String)
  | table (lines : List String)
  | quote (text : String)
  | text (t : String)
deriving DecidableEq, Repr

/-- Section of the exporter's parse result. -/
structure SectionV where
  title : String
  blocks : List BlockV
deriving DecidableEq, Repr

/-- Replacement text of the exporter's image substitution:
`alt ? 画像(alt) : 画像(src)`. -/
def imgSpeechTag (alt src : List Char) : List Char :=
  if alt = [] then "画像(".data ++ src ++ ")".data
  else "画像(".data ++ alt ++ ")".data

/-- Global replace of `/!\[([^\]]*)\]\(([^)]+)\)/g` by the spoken image
label, fuelled like the other global replaces. -/
def imgSpeechReplF : Nat → List Char → List Char
  | 0, l => l
  | _, [] => []
  | fuel + 1, '!' :: '[' :: rest =>
    match imgScan rest with
    | some (alt, src, r3) => imgSpeechTag alt src ++ imgSpeechReplF fuel r3
    | none => '!' :: imgSpeechReplF fuel ('[' :: rest)
  | fuel + 1, c :: rest => c :: imgSpeechReplF fuel rest

/-- Scan for one match of `\[([^\]]+)\]\(([^)]+)\)` (Markdown link) at the
current position: returns the link text and the remaining characters. -/
def linkScan (rest : List Char) : Option (List Char × List Char) :=
  if rest.takeWhile (· ≠ ']') = [] then none
  else
    match rest.dropWhile (· ≠ ']') with
    | ']' :: '(' :: r2 =>
      match r2.dropWhile (· ≠ ')') with
      | ')' :: r3 =>
        if r2.takeWhile (· ≠ ')') = [] then none
        else some (rest.takeWhile (· ≠ ']'), r3)
      | _ => none
    | _ => none

/-- Global replace of `/\[([^\]]+)\]\(([^)]+)\)/g` by the link text. -/
def linkReplF : Nat → List Char → List Char
  | 0, l => l
  | _, [] => []
  | fuel + 1, '[' :: rest =>
    match linkScan rest with
    | some (t, r3) => t ++ linkReplF fuel r3
    | none => '[' :: linkReplF fuel rest
  | fuel + 1, c :: rest => c :: linkReplF fuel rest

/-- Global replace of `/\*\*(.+?)\*\*/g` by its capture. -/
def boldStripF : Nat → List Char → List Char
  | 0, l => l
  | _, [] => []
  | fuel + 1, '*' :: '*' :: rest =>
    match boldScan [] rest with
    | some (content, tl) => content ++ boldStripF fuel tl
    | none => '*' :: '*' :: boldStripF fuel rest
  | fuel + 1, c :: rest => c :: boldStripF fuel rest

/-- Lazy scan for `(.+?)\*`: shortest non-empty capture before a star. -/
def italScan : List Char → List Char → Option (List Char × List Char)
  | _, [] => none
  | acc, c :: tl =>
    if tl.take 1 = ['*'] then some (acc ++ [c], tl.drop 1)
    else italScan (acc ++ [c]) tl

/-- Global replace of `/\*(.+?)\*/g` by its capture. -/
def italStripF : Nat → List Char → List Char
  | 0, l => l
  | _, [] => []
  | fuel + 1, '*' :: rest =>
    match italScan [] rest with
    | some (content, tl) => content ++ italStripF fuel tl
    | none => '*' :: italStripF fuel rest
  | fuel + 1, c :: rest => c :: italStripF fuel rest

/-- The backtick character (code point 96). -/
def backtick : Char := Char.ofNat 96

/-- Scan for one inline-code match at the current position (after an
opening backtick): a non-empty backtick-free capture and its closing
backtick. -/
def codeScan (rest : List Char) : Option (List Char × List Char) :=
  if rest.takeWhile (· ≠ backtick) = [] then none
  else
    match rest.dropWhile (· ≠ backtick) with
    | _ :: r2 => some (rest.takeWhile (· ≠ backtick), r2)
    | [] => none

/-- Global replace of the inline-code pattern by its capture. -/
def codeStripF : Nat → List Char → List Char
  | 0, l => l
  | _, [] => []
  | fuel + 1, c :: rest =>
    if c = backtick then
      match codeScan rest with
      | some (content, tl) => content ++ codeStripF fuel tl
      | none => c :: codeStripF fuel rest
    else c :: codeStripF fuel rest

/-- Global replace of `/\s+/g` by a single space: each maximal whitespace
run becomes one space (`prevWs` tracks whether the previous character was
part of a run). -/
def wsCollapseAux : Bool → List Char → List Char
  | _, [] => []
  | prevWs, c :: tl =>
    if isJsWs c then
      if prevWs then wsCollapseAux true tl else ' ' :: wsCollapseAux true tl
    else c :: wsCollapseAux false tl

/-- `stripMarkdown` of the video-script exporter: image labels, link
texts, bold, italic, inline code, whitespace collapsing, then trim; the
empty string short-circuits (the `if (!text)` guard). -/
def stripMarkdown (text : String) : String :=
  if text = "" then ""
  else
    let s1 := imgSpeechReplF text.data.length text.data
    let s2 := linkReplF s1.length s1
    let s3 := boldStripF s2.length s2
    let s4 := italStripF s3.length s3
    let s5 := codeStripF s4.length s4
    jsTrim (String.mk (wsCollapseAux false s5))

/-- Cell extraction of the exporter's `tableToSpeech`:
`line.split("|").slice(1, -1).map(trim)`. -/
def cellsOfV (line : String) : List String :=
  (((jsSplitChar line '|').drop 1).dropLast).map jsTrim

/-- Row collection of `tableToSpeech`: keep non-empty, non-separator rows. -/
def speechRows (lines : List String) : List (List String) :=
  lines.foldr
    (fun line acc =>
      if (cellsOfV line).length = 0 then acc
      else if isSepRow (cellsOfV line) then acc
      else cellsOfV line :: acc) []

/-- Header defaulting of `tableToSpeech`:
`cell || (idx === 0 ? 項目 : 列(idx+1))`, indexed from `i`. -/
def headerOf : Nat → List String → List String
  | _, [] => []
  | i, c :: tl =>
    (if c = "" then (if i = 0 then "項目" else "列" ++ Nat.repr (i + 1)) else c)
      :: headerOf (i + 1) tl

/-- One summarized body row: `header.map((h, idx) => (h ++ ": " ++ (row[idx] || "")).trim()).join("、")`. -/
def rowParts : Nat → List String → List String → List String
  | _, [], _ => []
  | i, h :: tl, row => jsTrim (h ++ ": " ++ row.getD i "") :: rowParts (i + 1) tl row

/-- `tableToSpeech` of the video-script exporter. -/
def tableToSpeech (lines : List String) : String :=
  match speechRows lines with
  | [] => ""
  | [r] => "表: " ++ joinSep " / " r
  | r0 :: bodyRows =>
    if joinSep "；" (bodyRows.map fun row => joinSep "、" (rowParts 0 (headerOf 0 r0) row)) = ""
    then "表: " ++ joinSep " / " (headerOf 0 r0)
    else "表: " ++ joinSep "；" (bodyRows.map fun row => joinSep "、" (rowParts 0 (headerOf 0 r0) row))

/-- `imageToSpeech` of the video-script exporter: the anchored image regex
with trimmed captures, or the plain fallback label. -/
def imageToSpeech (raw : String) : String :=
  match raw.data with
  | '!' :: '[' :: rest =>
    match imgScan rest with
    | some (alt, src, []) =>
      if jsTrim (String.mk alt) = "" then "画像メモ: " ++ jsTrim (String.mk src)
      else "画像メモ: " ++ jsTrim (String.mk alt)
    | _ => "画像メモ"
  | _ => "画像メモ"

/-- `speakerToChannel` of the video-script exporter: whitespace-normalized
speaker names beginning with the child-character prefix map to `right`,
all others to `left`. -/
def speakerToChannel (speaker : String) : String :=
  match speaker.data.filter (fun c => !isJsWs c) with
  | 'ひ' :: 'な' :: _ => "right"
  | _ => "left"

/-- One `{say, speaker, pauseSec}` line of the exported script. -/
structure SLine where
  say : String
  speaker : String
  pauseSec : Option ℚ
deriving DecidableEq, Repr

/-- The lines contributed by one block in `toSceneLines` (zero or one). -/
def blockLines : BlockV → List SLine
  | BlockV.speech sp ps =>
    if stripMarkdown (joinSep " " ps) = "" then []
    else [⟨stripMarkdown (joinSep " " ps), speakerToChannel sp, some (0.15 : ℚ)⟩]
  | BlockV.quote t =>
    if stripMarkdown t = "" then []
    else [⟨"引用: " ++ stripMarkdown t, "left", some (0.15 : ℚ)⟩]
  | BlockV.image raw =>
    [⟨stripMarkdown (imageToSpeech raw), "left", some (0.15 : ℚ)⟩]
  | BlockV.table ls =>
    if stripMarkdown (tableToSpeech ls) = "" then []
    else [⟨stripMarkdown (tableToSpeech ls), "left", some (0.15 : ℚ)⟩]
  | BlockV.text t =>
    if stripMarkdown t = "" then []
    else [⟨stripMarkdown t, "left", some (0.15 : ℚ)⟩]

/-- `toSceneLines` of the video-script exporter: the section-title line
followed by the per-block lines in order. -/
def toSceneLines (sec : SectionV) : List SLine :=
  ⟨"[face:neutral]" ++ stripMarkdown sec.title, "left", some (0.2 : ℚ)⟩
    :: sec.blocks.flatMap blockLines

/-- The fixed page template of `build-dialogue.mjs` before the
interpolated `contentHtml`. -/
def dialoguePagePre : String :=
  "<!doctype html>
<html lang=\"ja\">
  <head>
    <meta charset=\"UTF-8\" />
    <meta name=\"viewport\" content=\"width=device-width, initial-scale=1.0\" />
    <title>ひなたとの対談 | ワディーゲストハウス</title>
    <meta name=\"description\" content=\"ワディーとひなたの対談記録\" />
    <link rel=\"stylesheet\" href=\"./styles.css\" />
    <style>
      /* テキストサイト風 対談スタイル */
      .dialogue-body \x7b
        max-width: 640px;
        margin: 0 auto;
        font-size: 14px;
        line-height: 2;
        color: #c0c0c0;
      \x7d
      .dialogue-header \x7b
        text-align: center;
        margin: 48px 0 24px;
      \x7d
      .dialogue-title \x7b
        color: #e0c8a0;
        font-size: 22px;
        letter-spacing: 0.15em;
        margin: 0 0 8px;
      \x7d
      .dialogue-subtitle \x7b
        color: #888;
        font-size: 13px;
        font-style: italic;
        margin: 0;
      \x7d
      .dialogue-separator \x7b
        border: none;
        border-top: 1px solid #333;
        margin: 64px auto;
        max-width: 200px;
      \x7d
      .section-divider \x7b
        text-align: center;
        color: #999;
        margin: 32px 0 16px;
        font-size: 13px;
        letter-spacing: 0.3em;
      \x7d
      .talk-waddy, .talk-hina, .talk-other \x7b
        margin: 16px 0;
      \x7d
      .talk-waddy .talk-name \x7b
        color: #81eeff;
        font-weight: bold;
      \x7d
      .talk-hina .talk-name \x7b
        color: #f0a0b0;
        font-weight: bold;
      \x7d
      .talk-waddy \x7b color: #d0d0d0; \x7d
      .talk-hina \x7b color: #c8a8b0; \x7d
      .dialogue-date \x7b
        text-align: right;
        color: #666;
        font-size: 12px;
        margin-top: 32px;
      \x7d
    </style>
  </head>
  <body class=\"diary-despair\">
    <div class=\"stars\" aria-hidden=\"true\"></div>
    <main class=\"page-frame\">
      <header class=\"retro-header\">
        <p class=\"smallline\">Special Feature</p>
        <h1>ひなたとの対談</h1>
        <p class=\"tagline\">深夜、テキストだけで交わした対話の記録。</p>
      </header>

      <section class=\"panel\">
        <p>
          <a class=\"back-link\" href=\"./index.html\">トップページへ戻る</a>
          <a class=\"back-link\" href=\"./diary.html\">日記ページへ</a>
          <a class=\"back-link\" href=\"./galge-guide.html\">ギャルゲ感想ページへ</a>
        </p>
      </section>

      <section class=\"panel\">
        <div class=\"dialogue-body\">
"

/-- The fixed page template of `build-dialogue.mjs` after the
interpolated `contentHtml`. -/
def dialoguePagePost : String :=
  "
        </div>
      </section>

      <footer class=\"retro-footer\">
        <p>Copyright (C) 1999-2026 ワディーゲストハウス All Rights Reserved.</p>
      </footer>
    </main>
  </body>
</html>
"

/-- Parser state of the video-script exporter's `parseDialogue`:
finished sections, the open section and the open speech block
(`currentSpeech`). -/
structure VState where
  done : List SectionV
  cur : Option SectionV
  curSpeech : Option (String × List String)
deriving DecidableEq, Repr

/-- `flushSpeech` of the exporter: push the open speech block onto the
open section (when both exist) and clear it. -/
def flushSpeech (st : VState) : VState :=
  match st.curSpeech, st.cur with
  | some (sp, ps), some sec =>
    ⟨st.done, some ⟨sec.title, sec.blocks ++ [BlockV.speech sp ps]⟩, none⟩
  | _, _ => ⟨st.done, st.cur, none⟩

/-- Push a block onto the open section, if one is open. -/
def pushBV (c : Option SectionV) (b : BlockV) : Option SectionV :=
  c.map fun s => ⟨s.title, s.blocks ++ [b]⟩

/-- Table-line handling of the exporter (`lastBlock?.type === "table"`). -/
def addTableLineV (c : Option SectionV) (t : String) : Option SectionV :=
  match c with
  | none => none
  | some sec =>
    match sec.blocks.getLast? with
    | some (BlockV.table ls) =>
      some ⟨sec.title, sec.blocks.dropLast ++ [BlockV.table (ls ++ [t])]⟩
    | _ => some ⟨sec.title, sec.blocks ++ [BlockV.table [t]]⟩

/-- One line of the exporter's `parseDialogue` loop: heading, speaker,
the `if (!currentSection) continue` guard, blank, image, table, quote,
speech continuation, free text block. -/
def stepLineV (st : VState) (line : String) : VState :=
  match headingMatch line with
  | some title =>
    ⟨(flushSpeech st).done ++ (flushSpeech st).cur.toList, some ⟨title, []⟩, none⟩
  | none =>
    match speakerMatch line with
    | some (name, rest) =>
      ⟨(flushSpeech st).done, (flushSpeech st).cur,
        some (name, if jsTrim rest = "" then [] else [jsTrim rest])⟩
    | none =>
      match st.cur with
      | none => st
      | some _ =>
        if jsTrim line = "" then st
        else if isImageLine (jsTrim line) then
          ⟨(flushSpeech st).done, pushBV (flushSpeech st).cur (BlockV.image (jsTrim line)), none⟩
        else if (jsTrim line).data.head? = some '|' then
          ⟨(flushSpeech st).done, addTableLineV (flushSpeech st).cur (jsTrim line), none⟩
        else if (jsTrim line).data.head? = some '>' then
          ⟨(flushSpeech st).done,
            pushBV (flushSpeech st).cur (BlockV.quote (dropQuoteMark (jsTrim line))), none⟩
        else
          match st.curSpeech with
          | some (sp, ps) => ⟨st.done, st.cur, some (sp, ps ++ [jsTrim line])⟩
          | none => ⟨st.done, pushBV st.cur (BlockV.text (jsTrim line)), none⟩

/-- `parseDialogue` of the video-script exporter. -/
def parseDialogueVS (body : String) : List SectionV :=
  ((splitNl body).foldl stepLineV ⟨[], none, none⟩
    |> flushSpeech
    |> fun st => st.done ++ st.cur.toList)

/-- Meta access `m[k] || dflt` (JS falsy fallback: missing or empty). -/
def metaOr (m : List (String × String)) (k dflt : String) : String :=
  match lookupMeta k m with
  | some v => if v = "" then dflt else v
  | none => dflt

/-- Meta access `if (m[k]) …` (JS truthiness: present and non-empty). -/
def metaTruthy (m : List (String × String)) (k : String) : Option String :=
  match lookupMeta k m with
  | some v => if v = "" then none else some v
  | none => none

/-- Header fragment per dialogue in `main` of `build-dialogue.mjs`. -/
def dialogueHeaderHtml (meta : List (String × String)) : String :=
  "\n<div class=\"dialogue-header\">"
    ++ "<h2 class=\"dialogue-title\">" ++ escapeHtml (metaOr meta "title" "無題") ++ "</h2>"
    ++ (match metaTruthy meta "subtitle" with
        | some st => "<p class=\"dialogue-subtitle\">" ++ escapeHtml st ++ "</p>"
        | none => "")
    ++ "</div>\n"

/-- Date footer per dialogue in `main` of `build-dialogue.mjs`. -/
def dialogueDateHtml (meta : List (String × String)) : String :=
  match metaTruthy meta "date" with
  | some d => "<div class=\"dialogue-date\">" ++ d ++ " 収録</div>\n"
  | none => ""

/-- The `contentHtml` loop of `build-dialogue.mjs` over the sorted
dialogues, indexed to place the separator between dialogues. -/
def contentHtmlOf : Nat → List (List (String × String) × List Sect) → String
  | _, [] => ""
  | i, (meta, secs) :: tl =>
    (if 0 < i then "\n<div class=\"dialogue-separator\"></div>\n" else "")
      ++ dialogueHeaderHtml meta ++ sectionsHtml secs ++ dialogueDateHtml meta
      ++ contentHtmlOf (i + 1) tl

/-- `meta.date || ""` used by the sort comparator. -/
def metaDate (m : List (String × String)) : String :=
  (lookupMeta "date" m).getD ""

/-- JS `str.endsWith(suffix)` (on code points). -/
def jsEndsWith (s suf : String) : Bool :=
  s.data.reverse.take suf.data.length = suf.data.reverse

/-- A filesystem / console action performed by a build `main`. The pure
model records the actions in program order; an uncaught exception is the
only path to a non-zero exit code, and the pure pipeline throws none, so a
produced action list corresponds to an exit code of 0. -/
inductive FsAction
  | mkdirp (path : String)
  | unlink (path : String)
  | warn (msg : String)
  | log (msg : String)
  | write (path : String) (content : String)
deriving DecidableEq, Repr

/-- `main` of `build-dialogue.mjs` as a pure action trace. `dirFiles` is
the directory listing and `readF` the file contents;
`b.localeCompare(a)` on the ISO date strings is modelled as the
code-point order `decide (dateB ≤ dateA)` (exact on ASCII), and the sort
is the stable `mergeSort` (Node's sort is stable). Paths are relative to
the site root. -/
def dialogueMain (dirFiles : List String) (readF : String → String) : List FsAction :=
  if (dirFiles.filter (fun f => jsEndsWith f ".md")).length = 0 then
    [FsAction.warn "⚠ No dialogue files found"]
  else
    [FsAction.write "dialogue.html"
      (dialoguePagePre
        ++ contentHtmlOf 0
          (((dirFiles.filter (fun f => jsEndsWith f ".md")).map fun f =>
              ((parseFrontmatter (readF f)).1,
               parseDialogue (parseFrontmatter (readF f)).2)).mergeSort
            fun a b => decide (metaDate b.1 ≤ metaDate a.1))
        ++ dialoguePagePost),
     FsAction.log ("✓ dialogue.html generated ("
        ++ Nat.repr (dirFiles.filter (fun f => jsEndsWith f ".md")).length
        ++ " dialogues, "
        ++ Nat.repr ((((dirFiles.filter (fun f => jsEndsWith f ".md")).map fun f =>
              parseDialogue (parseFrontmatter (readF f)).2).map List.length).foldl
              (· + ·) 0)
        ++ " sections)")]

/-- JSON string serialization used by `yamlString` (`JSON.stringify`). -/
def jsonEscapeChar (c : Char) : List Char :=
  if c = '"' then ['\\', '"']
  else if c = '\\' then ['\\', '\\']
  else if c = '\n' then ['\\', 'n']
  else if c = '\r' then ['\\', 'r']
  else if c = '\t' then ['\\', 't']
  else if c.toNat < 32 then
    '\\' :: 'u' :: '0' :: '0'
      :: (Nat.toDigits 16 c.toNat |> fun ds => if ds.length = 1 then '0' :: ds else ds)
  else [c]

/-- `yamlString` of the exporter: `JSON.stringify(value ?? "")`. -/
def yamlString (value : String) : String :=
  "\"" ++ String.mk (value.data.flatMap jsonEscapeChar) ++ "\""

/-- Decimal rendering of the exporter's pause constants (the only numbers
it ever emits are 0.25, 0.2 and 0.15). -/
def pauseStr (q : ℚ) : String :=
  if q = (0.25 : ℚ) then "0.25"
  else if q = (0.2 : ℚ) then "0.2"
  else if q = (0.15 : ℚ) then "0.15"
  else toString q.num ++ "/" ++ toString q.den

/-- One scene of the exported script. -/
structure Scene where
  id : String
  lines : List SLine
deriving DecidableEq, Repr

/-- The fixed leading block of `renderYaml`. -/
def yamlHeader : String :=
  "version: \"1\"\nvideo:\n  width: 1920\n  height: 1080\n  fps: 30\n  backgroundColor: \"#10131b\"\navatar:\n  vrm: assets/avatar/hinahina20241110_BIG.vrm\n  idleMotion: y_pose\navatarRight:\n  vrm: assets/avatar/hinahina20241110_BIG.vrm\n  idleMotion: y_pose\nvoice:\n  timeoutSec: 20\n  bySpeaker:\n    left:\n      narrator: Japanese Male\n      speed: 100\n      pitch: -2\n    right:\n      narrator: Japanese Female Child\n      speed: 106\n      pitch: 20\nscenes:\n"

/-- Serialization of one script line inside `renderYaml`. -/
def yamlLine (l : SLine) : String :=
  "      - say: " ++ yamlString l.say ++ "\n"
    ++ "        speaker: " ++ l.speaker ++ "\n"
    ++ (match l.pauseSec with
        | some q => "        pauseSec: " ++ pauseStr q ++ "\n"
        | none => "")

/-- `renderYaml` of the exporter (its `meta` parameter is unused in the
source as well). -/
def renderYaml (_meta : List (String × String)) (scenes : List Scene) : String :=
  yamlHeader
    ++ concatStrs (scenes.map fun sc =>
        "  - id: " ++ sc.id ++ "\n    lines:\n" ++ concatStrs (sc.lines.map yamlLine))

/-- `String(n).padStart(2, "0")`. -/
def pad2 (n : Nat) : String :=
  if (Nat.repr n).length < 2 then "0" ++ Nat.repr n else Nat.repr n

/-- `basename(fileName, ".md")` for the plain names the exporter handles. -/
def stripMdSuffix (s : String) : String :=
  if jsEndsWith s ".md" then String.mk (s.data.dropLast.dropLast.dropLast) else s

/-- Run-collapsing replace of every character failing `keep` by one `-`
(the non-word and dash-run replaces of `stableSlug`). -/
def dashCollapse (keep : Char → Bool) : Bool → List Char → List Char
  | _, [] => []
  | prevBad, c :: tl =>
    if keep c then c :: dashCollapse keep false tl
    else if prevBad then dashCollapse keep true tl
    else '-' :: dashCollapse keep true tl

/-- `stableSlug` of the exporter. `normalize("NFKD")` is modelled as the
identity, which is exact on the ASCII characters that survive the
following `[^\w-]` replacement. -/
def stableSlug (fileName : String) : String :=
  if String.mk ((dashCollapse (fun c => isWordChar c || c = '-') false
        (stripMdSuffix fileName).data).dropWhile (· = '-')
      |> fun l => (l.reverse.dropWhile (· = '-')).reverse
      |> fun l => l.map Char.toLower) = ""
  then "episode"
  else String.mk ((dashCollapse (fun c => isWordChar c || c = '-') false
        (stripMdSuffix fileName).data).dropWhile (· = '-')
      |> fun l => (l.reverse.dropWhile (· = '-')).reverse
      |> fun l => l.map Char.toLower)

/-- `sanitizeFileName` of the exporter. -/
def sanitizeFileName (name : String) : String :=
  String.mk
    (((trimChars (wsCollapseAux false (name.data.map fun c =>
        if c = '\\' || c = '/' || c = ':' || c = '*' || c = '?' || c = '"'
            || c = '<' || c = '>' || c = '|' then '-' else c))).reverse.dropWhile
      (fun c => c = '.' || c = ' ')).reverse)

/-- The intro scene lines of one episode. -/
def introLines (meta : List (String × String)) : List SLine :=
  ⟨"[face:joy]" ++ stripMarkdown (metaOr meta "title" "無題"), "left", some (0.25 : ℚ)⟩
    :: (match metaTruthy meta "subtitle" with
        | some st => [⟨"[face:neutral]" ++ stripMarkdown st, "right", some (0.2 : ℚ)⟩]
        | none => [])
    ++ (match metaTruthy meta "date" with
        | some d => [⟨"[face:neutral]収録日 " ++ d, "left", some (0.2 : ℚ)⟩]
        | none => [])

/-- The numbered per-section scenes of one episode. -/
def sectionScenes : Nat → List SectionV → List Scene
  | _, [] => []
  | i, sec :: tl =>
    ⟨"scene-" ++ pad2 (i + 1), toSceneLines sec⟩ :: sectionScenes (i + 1) tl

/-- The write action of one episode (`i` is the zero-based episode index). -/
def episodeAction (i : Nat) (file : String) (readF : String → String) : FsAction :=
  FsAction.write
    ("video-scripts/episode-" ++ pad2 (i + 1) ++ "-"
      ++ (if sanitizeFileName (metaOr (parseFrontmatter (readF file)).1 "title"
            (stableSlug file)) = ""
          then "episode"
          else sanitizeFileName (metaOr (parseFrontmatter (readF file)).1 "title"
            (stableSlug file)))
      ++ ".yaml")
    (renderYaml (parseFrontmatter (readF file)).1
      (⟨"intro", introLines (parseFrontmatter (readF file)).1⟩
        :: sectionScenes 0 (parseDialogueVS (parseFrontmatter (readF file)).2)))

/-- Zero-based enumeration helper for the episode loop. -/
def episodeActions : Nat → List String → (String → String) → List FsAction
  | _, [], _ => []
  | i, f :: tl, readF => episodeAction i f readF :: episodeActions (i + 1) tl readF

/-- The episode file name of `episodeAction` (for the final log lines). -/
def episodeName (i : Nat) (file : String) (readF : String → String) : String :=
  "episode-" ++ pad2 (i + 1) ++ "-"
    ++ (if sanitizeFileName (metaOr (parseFrontmatter (readF file)).1 "title"
          (stableSlug file)) = ""
        then "episode"
        else sanitizeFileName (metaOr (parseFrontmatter (readF file)).1 "title"
          (stableSlug file)))
    ++ ".yaml"

/-- Zero-based enumeration of the generated names. -/
def episodeNames : Nat → List String → (String → String) → List String
  | _, [], _ => []
  | i, f :: tl, readF => episodeName i f readF :: episodeNames (i + 1) tl readF

/-- `main` of the video-script exporter as a pure action trace:
`mkdir -p` on the output directory, deletion of every pre-existing
`.yaml` file there, then either the zero-input warning or the sorted
episode writes plus the final log lines. The date tiebreak comparator
`localeCompare(…, "ja")` is modelled as code-point order. -/
def videoMain (outDirFiles : List String) (dirFiles : List String)
    (readF : String → String) : List FsAction :=
  FsAction.mkdirp "video-scripts"
    :: (outDirFiles.filter (fun f => jsEndsWith f ".yaml")).map
        (fun f => FsAction.unlink ("video-scripts/" ++ f))
    ++ (if (dirFiles.filter (fun f => jsEndsWith f ".md")).length = 0 then
          [FsAction.warn "⚠ dialogue/*.md が見つかりません"]
        else
          episodeActions 0
            ((dirFiles.filter (fun f => jsEndsWith f ".md")).mergeSort fun a b =>
              decide (metaDate (parseFrontmatter (readF a)).1
                    < metaDate (parseFrontmatter (readF b)).1)
              || (metaDate (parseFrontmatter (readF a)).1
                    = metaDate (parseFrontmatter (readF b)).1 && decide (a ≤ b)))
            readF
          ++ FsAction.log ("✓ "
              ++ Nat.repr ((dirFiles.filter (fun f => jsEndsWith f ".md")).length)
              ++ " files generated in video-scripts")
            :: (episodeNames 0
                ((dirFiles.filter (fun f => jsEndsWith f ".md")).mergeSort fun a b =>
                  decide (metaDate (parseFrontmatter (readF a)).1
                        < metaDate (parseFrontmatter (readF b)).1)
                  || (metaDate (parseFrontmatter (readF a)).1
                        = metaDate (parseFrontmatter (readF b)).1 && decide (a ≤ b)))
                readF).map (fun f => FsAction.log ("  - " ++ f)))

/-! ### Index-instrumented dialogue parser

The instrumented parser mirrors `stepLine` exactly, additionally recording
in each block the zero-based indices of the source lines that contributed
to it. Erasing the indices recovers `parseDialogue`. -/

/-- A block together with the indices of its contributing source lines. -/
inductive BlockI
  | speech (speaker : String) (paragraphs : List String) (idxs : List Nat)
  | image (raw : String) (idxs : List Nat)
  | table (lines : List String) (idxs : List Nat)
  | quote (text : String) (idxs : List Nat)
deriving DecidableEq, Repr

/-- The recorded source-line indices of a block. -/
def idxsOf : BlockI → List Nat
  | BlockI.speech _ _ ix => ix
  | BlockI.image _ ix => ix
  | BlockI.table _ ix => ix
  | BlockI.quote _ ix => ix

/-- Erase the instrumentation of one block. -/
def eraseB : BlockI → Block
  | BlockI.speech sp ps _ => Block.speech sp ps
  | BlockI.image r _ => Block.image r
  | BlockI.table ls _ => Block.table ls
  | BlockI.quote t _ => Block.quote t

/-- An instrumented section. -/
structure SectI where
  title : String
  blocks : List BlockI
deriving DecidableEq, Repr

/-- Erase the instrumentation of one section. -/
def eraseSec (s : SectI) : Sect :=
  ⟨s.title, s.blocks.map eraseB⟩

/-- All recorded indices of a section, in block order. -/
def flatI (s : SectI) : List Nat :=
  s.blocks.flatMap idxsOf

/-- Instrumented parser state. -/
structure IState where
  done : List SectI
  cur : Option SectI
  curSpeaker : Option String
  curBlock : Option (String × List String × List Nat)
deriving DecidableEq, Repr

/-- Erase the instrumentation of a parser state. -/
def eraseSt (st : IState) : PState :=
  ⟨st.done.map eraseSec, st.cur.map eraseSec, st.curSpeaker,
   st.curBlock.map fun p => (p.1, p.2.1)⟩

/-- Instrumented `flushCur`. -/
def flushCurI (st : IState) : IState :=
  match st.curBlock, st.cur with
  | some (sp, ps, ix), some sec =>
    ⟨st.done, some ⟨sec.title, sec.blocks ++ [BlockI.speech sp ps ix]⟩,
     st.curSpeaker, none⟩
  | _, _ => ⟨st.done, st.cur, st.curSpeaker, none⟩

/-- Instrumented `pushB`. -/
def pushBI (c : Option SectI) (b : BlockI) : Option SectI :=
  c.map fun s => ⟨s.title, s.blocks ++ [b]⟩

/-- Instrumented `addTableLine`: the appended line records index `n`. -/
def addTableLineI (c : Option SectI) (t : String) (n : Nat) : Option SectI :=
  match c with
  | none => none
  | some sec =>
    match sec.blocks.getLast? with
    | some (BlockI.table ls ix) =>
      some ⟨sec.title, sec.blocks.dropLast ++ [BlockI.table (ls ++ [t]) (ix ++ [n])]⟩
    | _ => some ⟨sec.title, sec.blocks ++ [BlockI.table [t] [n]]⟩

/-- Instrumented `stepLine` on the line with index `n`. -/
def stepLineI (n : Nat) (st : IState) (line : String) : IState :=
  match headingMatch line with
  | some title =>
    ⟨(flushCurI st).done ++ (flushCurI st).cur.toList, some ⟨title, []⟩, none, none⟩
  | none =>
    match speakerMatch line with
    | some (name, rest) =>
      ⟨(flushCurI st).done, (flushCurI st).cur, some name,
        some (name, (if jsTrim rest = "" then [] else [jsTrim rest]), [n])⟩
    | none =>
      if jsTrim line = "" then st
      else
        if isImageLine (jsTrim line) then
          ⟨(flushCurI st).done, pushBI (flushCurI st).cur (BlockI.image (jsTrim line) [n]),
            (flushCurI st).curSpeaker, (flushCurI st).curBlock⟩
        else if (jsTrim line).data.head? = some '|' then
          ⟨(flushCurI st).done, addTableLineI (flushCurI st).cur (jsTrim line) n,
            (flushCurI st).curSpeaker, (flushCurI st).curBlock⟩
        else if (jsTrim line).data.head? = some '>' then
          ⟨(flushCurI st).done,
            pushBI (flushCurI st).cur (BlockI.quote (dropQuoteMark (jsTrim line)) [n]),
            (flushCurI st).curSpeaker, (flushCurI st).curBlock⟩
        else
          match st.curBlock with
          | some (sp, ps, ix) =>
            ⟨st.done, st.cur, st.curSpeaker, some (sp, ps ++ [jsTrim line], ix ++ [n])⟩
          | none => st

/-- Run of the instrumented parser with its line counter. -/
def runI : Nat → IState → List String → IState
  | _, st, [] => st
  | n, st, l :: ls => runI (n + 1) (stepLineI n st l) ls

/-- Final sections of the instrumented parser. -/
def finishI (st : IState) : List SectI :=
  (flushCurI st).done ++ (flushCurI st).cur.toList

/-- The instrumented `parseDialogue`. -/
def parseDialogueI (body : String) : List SectI :=
  finishI (runI 0 ⟨[], none, none, none⟩ (splitNl body))

/-- Source order between two instrumented blocks: every contributing line of
the first precedes every contributing line of the second. -/
def blkLt (a b : BlockI) : Prop :=
  ∀ x ∈ idxsOf a, ∀ y ∈ idxsOf b, x < y

/-- A well-instrumented block: its recorded indices are non-empty and
strictly increasing, and a speech block carries a non-empty speaker. -/
def blkOK (b : BlockI) : Prop :=
  idxsOf b ≠ [] ∧ (idxsOf b).Pairwise (· < ·)
    ∧ ∀ sp ps ix, b = BlockI.speech sp ps ix → sp ≠ ""

/-- A well-instrumented section: all blocks well-formed and in source order. -/
def secOK (s : SectI) : Prop :=
  (∀ b ∈ s.blocks, blkOK b) ∧ s.blocks.Pairwise blkLt

/-- All recorded indices of the section lie below the bound. -/
def secLt (s : SectI) (n : Nat) : Prop :=
  ∀ i ∈ flatI s, i < n

/-- Invariant of the instrumented parser state before line `n` is read:
finished and open sections are well-formed, the open section only mentions
earlier lines, and the open speech block has a non-empty speaker, sorted
indices below `n`, all larger than every index already in the open section. -/
def stOK (st : IState) (n : Nat) : Prop :=
  (∀ s ∈ st.done, secOK s)
    ∧ (∀ s, st.cur = some s → secOK s ∧ secLt s n)
    ∧ ∀ sp ps ix, st.curBlock = some (sp, ps, ix) →
        sp ≠ "" ∧ ix ≠ [] ∧ ix.Pairwise (· < ·) ∧ (∀ i ∈ ix, i < n)
          ∧ ∀ s, st.cur = some s → ∀ a ∈ flatI s, ∀ b ∈ ix, a < b

/-! ### Helper lemmas -/

/-- The three sequential escape replaces equal the simultaneous three-character map. -/
theorem escape3_eq_flatMap (l : List Char) : escape3 l = l.flatMap htmlEscape3 := by
  unfold escape3 replaceChar
  rw [List.flatMap_assoc, List.flatMap_assoc]
  refine congrArg _ (funext fun c => ?_)
  by_cases h1 : c = '&'
  · subst h1; decide
  · by_cases h2 : c = '<'
    · subst h2; decide
    · by_cases h3 : c = '>'
      · subst h3; decide
      · simp [h1, h2, h3, htmlEscape3]

/-- A string whose trim is empty consists of whitespace only. -/
theorem all_ws_of_trim_empty {s : String} (h : jsTrim s = "") :
    ∀ c ∈ s.data, isJsWs c = true := by
  intro c hc
  have h0 : trimChars s.data = [] := by
    have := congrArg String.data h
    simpa [jsTrim] using this
  unfold trimChars at h0
  rw [List.reverse_eq_nil_iff, List.dropWhile_eq_nil_iff] at h0
  have h2 : ∀ x ∈ s.data.dropWhile isJsWs, isJsWs x = true := by
    intro x hx
    exact h0 x (List.mem_reverse.mpr hx)
  rw [← List.takeWhile_append_dropWhile (p := isJsWs) (l := s.data)] at hc
  rcases List.mem_append.mp hc with h3 | h3
  · exact List.mem_takeWhile_imp h3
  · exact h2 c h3

/-- The head of the trimmed string is the head of the string with leading
whitespace dropped. -/
theorem trim_head? {l : List Char} {c : Char} (h : (trimChars l).head? = some c) :
    (l.dropWhile isJsWs).head? = some c := by
  unfold trimChars at h
  obtain ⟨t, ht⟩ := List.dropWhile_suffix (l := (l.dropWhile isJsWs).reverse) isJsWs
  have hm : l.dropWhile isJsWs
      = ((l.dropWhile isJsWs).reverse.dropWhile isJsWs).reverse ++ t.reverse := by
    rw [← List.reverse_append, ht, List.reverse_reverse]
  rw [hm, List.head?_append]
  rw [h]
  rfl

/-- A whitespace-only line is not a heading line. -/
theorem headingMatch_none_of_ws {l : String} (h : ∀ c ∈ l.data, isJsWs c = true) :
    headingMatch l = none := by
  unfold headingMatch
  split
  case h_1 rest heq =>
    have := h '#' (by rw [heq]; exact List.mem_cons_self _ _)
    simp [isJsWs] at this
  case h_2 => rfl

/-- A whitespace-only line is not a speaker line. -/
theorem speakerMatch_none_of_ws {l : String} (h : ∀ c ∈ l.data, isJsWs c = true) :
    speakerMatch l = none := by
  unfold speakerMatch
  split
  case h_1 rest heq =>
    have := h '*' (by rw [heq]; exact List.mem_cons_self _ _)
    simp [isJsWs] at this
  case h_2 => rfl

/-- A line whose trim starts with `c` (not `#`) is not a heading line. -/
theorem headingMatch_none_of_trim_head {l : String} {c : Char} (hc : c ≠ '#')
    (h : (jsTrim l).data.head? = some c) : headingMatch l = none := by
  have h1 : (l.data.dropWhile isJsWs).head? = some c := trim_head? h
  unfold headingMatch
  split
  case h_1 rest heq =>
    rw [heq] at h1
    rw [List.dropWhile_cons] at h1
    simp [isJsWs] at h1
    exact absurd h1.symm hc
  case h_2 => rfl

/-- A line whose trim starts with `c` (not `*`) is not a speaker line. -/
theorem speakerMatch_none_of_trim_head {l : String} {c : Char} (hc : c ≠ '*')
    (h : (jsTrim l).data.head? = some c) : speakerMatch l = none := by
  have h1 : (l.data.dropWhile isJsWs).head? = some c := trim_head? h
  unfold speakerMatch
  split
  case h_1 rest heq =>
    rw [heq] at h1
    rw [List.dropWhile_cons] at h1
    simp [isJsWs] at h1
    exact absurd h1.symm hc
  case h_2 => rfl

/-- A string whose trim starts with `c` (not `!`) is not an image line. -/
theorem isImageLine_false_of_head {t : String} {c : Char} (hc : c ≠ '!')
    (h : t.data.head? = some c) : isImageLine t = false := by
  unfold isImageLine
  split
  case h_1 rest heq =>
    rw [heq] at h
    simp at h
    exact absurd h.symm hc
  case h_2 => rfl

/-- A string whose data head exists is non-empty. -/
theorem ne_empty_of_head {t : String} {c : Char} (h : t.data.head? = some c) :
    t ≠ "" := by
  intro he
  rw [he] at h
  simp at h

/-- Flushing is the identity when no speech block is open. -/
theorem flushCur_of_curBlock_none {st : PState} (h : st.curBlock = none) :
    flushCur st = st := by
  rcases st with ⟨d, c, s, b⟩
  simp only at h
  subst h
  cases c <;> rfl

/-- Flushing keeps `done` and `cur` when no section is open. -/
theorem flushCur_of_cur_none {st : PState} (h : st.cur = none) :
    flushCur st = { st with curBlock := none } := by
  rcases st with ⟨d, c, s, b⟩
  simp only at h
  subst h
  rcases b with _ | ⟨sp, ps⟩ <;> rfl

/-- Flushing never changes the list of finished sections. -/
theorem flushCur_done (st : PState) : (flushCur st).done = st.done := by
  unfold flushCur
  split <;> rfl

/-- Unfolding of `stepLine` on a heading line. -/
theorem stepLine_eq_heading {l : String} {title : String} (st : PState)
    (hh : headingMatch l = some title) :
    stepLine st l
      = { done := (flushCur st).done ++ (flushCur st).cur.toList, cur := some ⟨title, []⟩,
          curSpeaker := none, curBlock := none } := by
  simp only [stepLine, hh]

/-- Unfolding of `stepLine` on a speaker line. -/
theorem stepLine_eq_speaker {l name rest : String} (st : PState)
    (hh : headingMatch l = none) (hs : speakerMatch l = some (name, rest)) :
    stepLine st l
      = ⟨(flushCur st).done, (flushCur st).cur, some name,
          some (name, if jsTrim rest = "" then [] else [jsTrim rest])⟩ := by
  simp only [stepLine, hh, hs]

/-- Unfolding of `stepLine` on a blank line. -/
theorem stepLine_eq_blank {l : String} (st : PState)
    (hh : headingMatch l = none) (hs : speakerMatch l = none) (ht : jsTrim l = "") :
    stepLine st l = st := by
  simp only [stepLine, hh, hs]
  rw [if_pos ht]

/-- Unfolding of `stepLine` on an image line. -/
theorem stepLine_eq_image {l : String} (st : PState)
    (hh : headingMatch l = none) (hs : speakerMatch l = none) (ht : ¬ jsTrim l = "")
    (hi : isImageLine (jsTrim l) = true) :
    stepLine st l
      = ⟨(flushCur st).done, pushB (flushCur st).cur (Block.image (jsTrim l)),
          (flushCur st).curSpeaker, (flushCur st).curBlock⟩ := by
  simp only [stepLine, hh, hs]
  rw [if_neg ht, if_pos hi]

/-- Unfolding of `stepLine` on a table line. -/
theorem stepLine_eq_table {l : String} (st : PState)
    (hh : headingMatch l = none) (hs : speakerMatch l = none) (ht : ¬ jsTrim l = "")
    (hi : ¬ isImageLine (jsTrim l) = true) (hp : (jsTrim l).data.head? = some '|') :
    stepLine st l
      = ⟨(flushCur st).done, addTableLine (flushCur st).cur (jsTrim l),
          (flushCur st).curSpeaker, (flushCur st).curBlock⟩ := by
  simp only [stepLine, hh, hs]
  rw [if_neg ht, if_neg hi, if_pos hp]

/-- Unfolding of `stepLine` on a quote line. -/
theorem stepLine_eq_quote {l : String} (st : PState)
    (hh : headingMatch l = none) (hs : speakerMatch l = none) (ht : ¬ jsTrim l = "")
    (hi : ¬ isImageLine (jsTrim l) = true) (hp : ¬ (jsTrim l).data.head? = some '|')
    (hq : (jsTrim l).data.head? = some '>') :
    stepLine st l
      = ⟨(flushCur st).done,
          pushB (flushCur st).cur (Block.quote (dropQuoteMark (jsTrim l))),
          (flushCur st).curSpeaker, (flushCur st).curBlock⟩ := by
  simp only [stepLine, hh, hs]
  rw [if_neg ht, if_neg hi, if_neg hp, if_pos hq]

/-- Unfolding of `stepLine` on a plain continuation line. -/
theorem stepLine_eq_plain {l : String} (st : PState)
    (hh : headingMatch l = none) (hs : speakerMatch l = none) (ht : ¬ jsTrim l = "")
    (hi : ¬ isImageLine (jsTrim l) = true) (hp : ¬ (jsTrim l).data.head? = some '|')
    (hq : ¬ (jsTrim l).data.head? = some '>') :
    stepLine st l
      = match st.curBlock with
        | some (sp, ps) => { st with curBlock := some (sp, ps ++ [jsTrim l]) }
        | none => st := by
  simp only [stepLine, hh, hs]
  rw [if_neg ht, if_neg hi, if_neg hp, if_neg hq]

/-- A non-heading line maps a section-less state to a section-less state
without touching the finished sections. -/
theorem stepLine_preserve (st : PState) (l : String) (hh : headingMatch l = none)
    (hc : st.cur = none) :
    (stepLine st l).cur = none ∧ (stepLine st l).done = st.done := by
  cases hs : speakerMatch l with
  | some p =>
    obtain ⟨name, rest⟩ := p
    rw [stepLine_eq_speaker st hh hs, flushCur_of_cur_none hc]
    exact ⟨hc, rfl⟩
  | none =>
    by_cases ht : jsTrim l = ""
    · rw [stepLine_eq_blank st hh hs ht]
      exact ⟨hc, rfl⟩
    · by_cases hi : isImageLine (jsTrim l) = true
      · rw [stepLine_eq_image st hh hs ht hi, flushCur_of_cur_none hc]
        simp [pushB, hc]
      · by_cases hp : (jsTrim l).data.head? = some '|'
        · rw [stepLine_eq_table st hh hs ht hi hp, flushCur_of_cur_none hc]
          simp [addTableLine, hc]
        · by_cases hq : (jsTrim l).data.head? = some '>'
          · rw [stepLine_eq_quote st hh hs ht hi hp hq, flushCur_of_cur_none hc]
            simp [pushB, hc]
          · rw [stepLine_eq_plain st hh hs ht hi hp hq]
            cases hb : st.curBlock with
            | some p =>
              obtain ⟨sp, ps⟩ := p
              exact ⟨hc, rfl⟩
            | none => exact ⟨hc, rfl⟩

/-- A heading line from a fresh state yields the canonical one-section state. -/
theorem stepLine_heading {st : PState} {l : String} {title : String}
    (hh : headingMatch l = some title) (hd : st.done = []) (hc : st.cur = none) :
    stepLine st l = ⟨[], some ⟨title, []⟩, none, none⟩ := by
  rw [stepLine_eq_heading st hh, flushCur_of_cur_none hc]
  simp [hd, hc]

/-- Folding non-heading lines from a section-less state stays section-less. -/
theorem foldl_no_heading : ∀ (ls : List String) (st : PState),
    (∀ l ∈ ls, headingMatch l = none) → st.cur = none →
    (ls.foldl stepLine st).cur = none ∧ (ls.foldl stepLine st).done = st.done := by
  intro ls
  induction ls with
  | nil => intro st _ hc; exact ⟨hc, rfl⟩
  | cons l tl ih =>
    intro st h hc
    have h1 := stepLine_preserve st l (h l (by simp)) hc
    have h2 := ih (stepLine st l) (fun x hx => h x (by simp [hx])) h1.1
    constructor
    · simp only [List.foldl_cons]
      exact h2.1
    · simp only [List.foldl_cons]
      rw [h2.2, h1.2]

/-- Final sections of a section-less state with no finished sections. -/
theorem finishP_fresh {st : PState} (hc : st.cur = none) (hd : st.done = []) :
    finishP st = [] := by
  unfold finishP
  rw [flushCur_of_cur_none hc]
  simp [hd, hc]

/-- The parse result does not depend on the starting state, as long as that
state has no finished sections and no open section. -/
theorem parseFrom_indep : ∀ (post : List String) (st st' : PState),
    st.done = [] → st.cur = none → st'.done = [] → st'.cur = none →
    finishP (post.foldl stepLine st) = finishP (post.foldl stepLine st') := by
  intro post
  induction post with
  | nil =>
    intro st st' h1 h2 h3 h4
    simp only [List.foldl_nil]
    rw [finishP_fresh h2 h1, finishP_fresh h4 h3]
  | cons l tl ih =>
    intro st st' h1 h2 h3 h4
    simp only [List.foldl_cons]
    cases hh : headingMatch l with
    | some title =>
      rw [stepLine_heading hh h1 h2, stepLine_heading hh h3 h4]
    | none =>
      have p1 := stepLine_preserve st l hh h2
      have p2 := stepLine_preserve st' l hh h4
      exact ih _ _ (by rw [p1.2, h1]) p1.1 (by rw [p2.2, h3]) p2.1

/-- Lines before the first heading do not influence the parse result. -/
theorem parseLines_skip_pre : ∀ pre post : List String,
    (∀ l ∈ pre, headingMatch l = none) →
    parseLines (pre ++ post) = parseLines post := by
  intro pre post h
  unfold parseLines
  rw [List.foldl_append]
  have hpre := foldl_no_heading pre initPState h rfl
  exact parseFrom_indep post _ initPState hpre.2 hpre.1 rfl rfl

/-- A body with no heading line parses to the empty section list. -/
theorem parseLines_nil_of_no_heading (ls : List String)
    (h : ∀ l ∈ ls, headingMatch l = none) : parseLines ls = [] := by
  have := parseLines_skip_pre ls [] h
  simpa using this

/-- Tail rows of `renderTable` (index `i ≠ 0`) are exactly the body rows of
the spec-side renderer. -/
theorem tableRows_tail : ∀ (ls : List String) (i : Nat), i ≠ 0 →
    tableRows i ls
      = concatStrs (((ls.map cellsOf).filter (fun cs => !isSepRow cs)).map (rowHtml false)) := by
  intro ls
  induction ls with
  | nil => intro i _; rfl
  | cons l tl ih =>
    intro i h
    have hd : (decide (i = 0)) = false := decide_eq_false h
    simp only [tableRows]
    rw [ih (i + 1) (by omega)]
    cases hs : isSepRow (cellsOf l) with
    | true => simp [hs, List.filter_cons]
    | false => simp [hs, hd, List.filter_cons, concatStrs]

/-- `addTableLine` appends to a trailing table block. -/
theorem addTableLine_last_table (t : String) (sec : Sect) (title : String)
    (bs : List Block) (ls : List String)
    (hsec : sec = ⟨title, bs ++ [Block.table ls]⟩) :
    addTableLine (some sec) t = some ⟨title, bs ++ [Block.table (ls ++ [t])]⟩ := by
  subst hsec
  unfold addTableLine
  split
  · rename_i hgl
    exact absurd hgl (by simp)
  · rename_i sec' heq
    injection heq with h
    subst h
    split
    · rename_i ls' hgl
      rw [List.getLast?_concat] at hgl
      injection hgl with h1
      injection h1 with h2
      subst h2
      simp [List.dropLast_concat]
    · rename_i hx
      refine absurd ?_ (fun h => hx ls h)
      simp

/-- `addTableLine` starts a new table block when the last block is not a
table. -/
theorem addTableLine_not_table (sec : Sect) (t : String)
    (hnt : ∀ ls, sec.blocks.getLast? ≠ some (Block.table ls)) :
    addTableLine (some sec) t = some ⟨sec.title, sec.blocks ++ [Block.table [t]]⟩ := by
  unfold addTableLine
  split
  · rename_i hgl
    exact absurd hgl (by simp)
  · rename_i sec' heq
    injection heq with h
    subst h
    split
    · rename_i ls hgl
      exact absurd hgl (hnt ls)
    · rfl

/-- Consecutive table lines extend the trailing table block of the open
section, one trimmed line at a time. -/
theorem foldl_table_extend : ∀ (tls : List String) (st : PState) (title : String)
    (bs : List Block) (ls : List String),
    st.cur = some ⟨title, bs ++ [Block.table ls]⟩ → st.curBlock = none →
    (∀ l ∈ tls, (jsTrim l).data.head? = some '|') →
    List.foldl stepLine st tls
      = ⟨st.done, some ⟨title, bs ++ [Block.table (ls ++ tls.map jsTrim)]⟩,
         st.curSpeaker, none⟩ := by
  intro tls
  induction tls with
  | nil =>
    intro st title bs ls hcur hb _
    rcases st with ⟨d, c, s, b⟩
    simp only at hcur hb
    subst hcur
    subst hb
    simp
  | cons t rest ih =>
    intro st title bs ls hcur hb hall
    have hp : (jsTrim t).data.head? = some '|' := hall t (by simp)
    have hh : headingMatch t = none := headingMatch_none_of_trim_head (by decide) hp
    have hsp : speakerMatch t = none := speakerMatch_none_of_trim_head (by decide) hp
    have hne : ¬ jsTrim t = "" := ne_empty_of_head hp
    have hi : ¬ isImageLine (jsTrim t) = true := by
      rw [isImageLine_false_of_head (by decide) hp]
      simp
    simp only [List.foldl_cons]
    rw [stepLine_eq_table st hh hsp hne hi hp, flushCur_of_curBlock_none hb, hcur, hb]
    rw [addTableLine_last_table (jsTrim t) _ title bs ls rfl]
    have hext := ih ⟨st.done, some ⟨title, bs ++ [Block.table (ls ++ [jsTrim t])]⟩,
        st.curSpeaker, none⟩ title bs (ls ++ [jsTrim t]) rfl rfl
        (fun l hl => hall l (by simp [hl]))
    rw [hext]
    simp

/-- `splitNlAux` accumulates an ordinary (non-line-break) character. -/
theorem splitNlAux_step {c : Char} (hcn : c ≠ '\n') (hcr : c ≠ '\r')
    (cs acc : List Char) :
    splitNlAux (c :: cs) acc = splitNlAux cs (c :: acc) :=
  splitNlAux.eq_4 acc c cs (fun _ hr _ => hcr hr) (fun hn => hcn hn)

/-- `splitNlAux` on break-free characters never splits. -/
theorem splitNlAux_no_break : ∀ (cs acc : List Char),
    (∀ c ∈ cs, !(c = '\n' || c = '\r') = true) →
    splitNlAux cs acc = [String.mk (acc.reverse ++ cs)] := by
  intro cs
  induction cs with
  | nil => intro acc _; simp [splitNlAux]
  | cons c cs' ih =>
    intro acc h
    have hc := h c (by simp)
    have hcn : c ≠ '\n' := by
      intro he
      rw [he] at hc
      simp at hc
    have hcr : c ≠ '\r' := by
      intro he
      rw [he] at hc
      simp at hc
    rw [splitNlAux_step hcn hcr, ih (c :: acc) (fun x hx => h x (by simp [hx]))]
    simp

/-- `splitNlAux` splits at the `\n` following a break-free chunk. -/
theorem splitNlAux_append_break : ∀ (cs acc rest : List Char),
    (∀ c ∈ cs, !(c = '\n' || c = '\r') = true) →
    splitNlAux (cs ++ '\n' :: rest) acc
      = String.mk (acc.reverse ++ cs) :: splitNlAux rest [] := by
  intro cs
  induction cs with
  | nil =>
    intro acc rest _
    rcases rest with _ | ⟨c2, rest'⟩ <;> simp [splitNlAux]
  | cons c cs' ih =>
    intro acc rest h
    have hc := h c (by simp)
    have hcn : c ≠ '\n' := by
      intro he
      rw [he] at hc
      simp at hc
    have hcr : c ≠ '\r' := by
      intro he
      rw [he] at hc
      simp at hc
    rw [List.cons_append, splitNlAux_step hcn hcr,
        ih (c :: acc) rest (fun x hx => h x (by simp [hx]))]
    simp

/-- `splitNl` inverts `unlines` on non-empty lists of break-free lines. -/
theorem splitNl_unlines : ∀ ls : List String, ls ≠ [] →
    (∀ l ∈ ls, noNl l = true) → splitNl (unlines ls) = ls := by
  intro ls
  induction ls with
  | nil => intro h _; exact absurd rfl h
  | cons x tl ih =>
    intro _ h
    have hx : ∀ c ∈ x.data, !(c = '\n' || c = '\r') = true := by
      have := h x (by simp)
      simpa [noNl, List.all_eq_true] using this
    rcases tl with _ | ⟨y, tl'⟩
    · show splitNl x = [x]
      unfold splitNl
      rw [splitNlAux_no_break x.data [] hx]
      simp
    · show splitNl (x ++ "\n" ++ unlines (y :: tl')) = x :: y :: tl'
      have hrest := ih (by simp) (fun l hl => h l (by simp [hl]))
      unfold splitNl at hrest ⊢
      have hdata : (x ++ "\n" ++ unlines (y :: tl')).data
          = x.data ++ '\n' :: (unlines (y :: tl')).data := by
        rw [String.data_append, String.data_append]
        simp
      rw [hdata, splitNlAux_append_break x.data [] _ hx, hrest]
      simp

/-- `fmSplit` finds the first closing `---` line that has a successor. -/
theorem fmSplit_concat : ∀ (fmTail bodyLs : List String),
    (∀ l ∈ fmTail, l ≠ "---") → bodyLs ≠ [] →
    fmSplit (fmTail ++ "---" :: bodyLs) = some (fmTail, bodyLs) := by
  intro fmTail
  induction fmTail with
  | nil =>
    intro bodyLs _ hne
    rcases bodyLs with _ | ⟨b, tl⟩
    · exact absurd rfl hne
    · simp [fmSplit]
  | cons f fmTail' ih =>
    intro bodyLs h hne
    have hf : f ≠ "---" := h f (by simp)
    have hcons : ∃ y tl, fmTail' ++ "---" :: bodyLs = y :: tl := by
      cases fmTail' <;> exact ⟨_, _, rfl⟩
    obtain ⟨y, tl, hyt⟩ := hcons
    rw [List.cons_append, hyt]
    simp only [fmSplit, if_neg hf]
    rw [← hyt, ih bodyLs (fun l hl => h l (by simp [hl])) hne]
    rfl

/-- Looking up the key just set returns the new value. -/
theorem lookupMeta_setKey_self : ∀ (m : List (String × String)) (k v : String),
    lookupMeta k (setKey m k v) = some v := by
  intro m
  induction m with
  | nil => intro k v; simp [setKey, lookupMeta]
  | cons p tl ih =>
    intro k v
    obtain ⟨k', v'⟩ := p
    by_cases h : k' = k
    · subst h
      simp [setKey, lookupMeta]
    · simp only [setKey, if_neg h, lookupMeta, ih]

/-- Setting one key does not change the lookup of another. -/
theorem lookupMeta_setKey_other : ∀ (m : List (String × String)) (k k' v : String),
    k ≠ k' → lookupMeta k' (setKey m k v) = lookupMeta k' m := by
  intro m
  induction m with
  | nil =>
    intro k k' v h
    simp [setKey, lookupMeta, h]
  | cons p tl ih =>
    intro k k' v h
    obtain ⟨k0, v0⟩ := p
    by_cases h0 : k0 = k
    · subst h0
      simp only [setKey, if_pos rfl, lookupMeta, if_neg h]
    · simp only [setKey, if_neg h0, lookupMeta, ih _ _ _ h]

/-- Lookup distributes over list append. -/
theorem lookupMeta_append : ∀ (a b : List (String × String)) (k : String),
    lookupMeta k (a ++ b) = (lookupMeta k a).or (lookupMeta k b) := by
  intro a
  induction a with
  | nil => intro b k; simp [lookupMeta]
  | cons p tl ih =>
    intro b k
    obtain ⟨k0, v0⟩ := p
    by_cases h : k0 = k
    · simp [lookupMeta, h]
    · simp [lookupMeta, h, ih]

/-- One `setKey` in terms of a single-pair lookup. -/
theorem lookupMeta_setKey (m : List (String × String)) (k0 v0 k : String) :
    lookupMeta k (setKey m k0 v0) = (lookupMeta k [(k0, v0)]).or (lookupMeta k m) := by
  by_cases h : k0 = k
  · subst h
    rw [lookupMeta_setKey_self]
    simp [lookupMeta]
  · rw [lookupMeta_setKey_other m k0 k v0 h]
    simp [lookupMeta, h]

/-- The meta mapping built by the front-matter loop: a key maps to the
value of its last declaring line. -/
theorem lookupMeta_foldl_addMeta : ∀ (ls : List String) (m : List (String × String)) (k : String),
    lookupMeta k (ls.foldl addMeta m)
      = (lookupMeta k (ls.filterMap parseKV).reverse).or (lookupMeta k m) := by
  intro ls
  induction ls with
  | nil => intro m k; simp [lookupMeta]
  | cons l tl ih =>
    intro m k
    simp only [List.foldl_cons, List.filterMap_cons]
    cases hkv : parseKV l with
    | none =>
      rw [ih]
      simp [addMeta, hkv]
    | some p =>
      obtain ⟨k0, v0⟩ := p
      simp only [addMeta, hkv, List.reverse_cons]
      rw [ih, lookupMeta_append, lookupMeta_setKey, Option.or_assoc]

/-- The head of a `dropWhile` result fails the predicate. -/
theorem head?_dropWhile_not : ∀ (l : List Char) (c : Char),
    (l.dropWhile isJsWs).head? = some c → isJsWs c = false := by
  intro l
  induction l with
  | nil => intro c h; simp at h
  | cons x tl ih =>
    intro c h
    rw [List.dropWhile_cons] at h
    by_cases hx : isJsWs x = true
    · rw [if_pos hx] at h
      exact ih c h
    · rw [if_neg hx] at h
      simp at h
      rw [← h]
      exact Bool.not_eq_true _ |>.mp hx

/-- Trimmed text does not start with whitespace. -/
theorem trimChars_head_not_ws {l : List Char} {c : Char}
    (h : (trimChars l).head? = some c) : isJsWs c = false :=
  head?_dropWhile_not l c (trim_head? h)

/-- Trimmed text does not end with whitespace. -/
theorem trimChars_getLast_not_ws {l : List Char} {c : Char}
    (h : (trimChars l).getLast? = some c) : isJsWs c = false := by
  unfold trimChars at h
  rw [List.getLast?_reverse] at h
  exact head?_dropWhile_not _ c h

/-- Shape of a successful `parseKV`: the value is the trim of the text
after the colon. -/
theorem parseKV_shape {line k v : String} (h : parseKV line = some (k, v)) :
    ∃ rest : List Char, v = jsTrim (String.mk rest) := by
  unfold parseKV at h
  split at h
  · exact absurd h (by simp)
  · split at h
    · split at h
      · exact absurd h (by simp)
      · rename_i rest _ _
        refine ⟨rest, ?_⟩
        injection h with h1
        injection h1 with h2 h3
        exact h3.symm
    · exact absurd h (by simp)

/-- Values produced by `parseKV` carry no surrounding whitespace. -/
theorem parseKV_val_trimmed {line k v : String} (h : parseKV line = some (k, v)) :
    (∀ c, v.data.head? = some c → isJsWs c = false)
    ∧ (∀ c, v.data.getLast? = some c → isJsWs c = false) := by
  obtain ⟨rest, hv⟩ := parseKV_shape h
  subst hv
  constructor
  · intro c hc
    exact trimChars_head_not_ws hc
  · intro c hc
    exact trimChars_getLast_not_ws hc

/-! #### Erasure of the index instrumentation -/

/-- Flushing never sets an open speech block. -/
theorem flushCurI_curBlock (st : IState) : (flushCurI st).curBlock = none := by
  unfold flushCurI
  split <;> rfl

/-- `flushCurI` commutes with erasure. -/
theorem eraseSt_flushCurI (st : IState) :
    eraseSt (flushCurI st) = flushCur (eraseSt st) := by
  rcases st with ⟨d, c, s, b⟩
  rcases b with _ | ⟨sp, ps, ix⟩
  · rcases c with _ | sec <;> rfl
  · rcases c with _ | sec
    · rfl
    · simp [eraseSt, flushCurI, flushCur, eraseSec, eraseB]

/-- `pushBI` commutes with erasure. -/
theorem pushBI_erase (c : Option SectI) (b : BlockI) :
    (pushBI c b).map eraseSec = pushB (c.map eraseSec) (eraseB b) := by
  cases c <;> simp [pushBI, pushB, eraseSec]

/-- `addTableLineI` extends a trailing table block, recording the new index. -/
theorem addTableLineI_last_table (t : String) (sec : SectI) (title : String)
    (bs : List BlockI) (ls : List String) (ix : List Nat) (n : Nat)
    (hsec : sec = ⟨title, bs ++ [BlockI.table ls ix]⟩) :
    addTableLineI (some sec) t n
      = some ⟨title, bs ++ [BlockI.table (ls ++ [t]) (ix ++ [n])]⟩ := by
  subst hsec
  unfold addTableLineI
  split
  · rename_i hgl
    exact absurd hgl (by simp)
  · rename_i sec' heq
    injection heq with h
    subst h
    split
    · rename_i ls' ix' hgl
      rw [List.getLast?_concat] at hgl
      injection hgl with h1
      injection h1 with h2 h3
      subst h2
      subst h3
      simp [List.dropLast_concat]
    · rename_i hx
      refine absurd ?_ (fun h => hx ls ix h)
      simp

/-- `addTableLineI` starts a new table block when the last block is not a
table, recording the current index. -/
theorem addTableLineI_not_table (sec : SectI) (t : String) (n : Nat)
    (hnt : ∀ ls ix, sec.blocks.getLast? ≠ some (BlockI.table ls ix)) :
    addTableLineI (some sec) t n
      = some ⟨sec.title, sec.blocks ++ [BlockI.table [t] [n]]⟩ := by
  unfold addTableLineI
  split
  · rename_i hgl
    exact absurd hgl (by simp)
  · rename_i sec' heq
    injection heq with h
    subst h
    split
    · rename_i ls ix hgl
      exact absurd hgl (hnt ls ix)
    · rfl

/-- `addTableLineI` commutes with erasure. -/
theorem addTableLineI_erase (c : Option SectI) (t : String) (n : Nat) :
    (addTableLineI c t n).map eraseSec = addTableLine (c.map eraseSec) t := by
  cases c with
  | none => rfl
  | some sec =>
    cases hgl : sec.blocks.getLast? with
    | none =>
      have hd := addTableLineI_not_table sec t n (by simp [hgl])
      have he : (eraseSec sec).blocks.getLast? = none := by
        simp [eraseSec, List.getLast?_map, hgl]
      have hd2 := addTableLine_not_table (eraseSec sec) t (by simp [he])
      show (addTableLineI (some sec) t n).map eraseSec = addTableLine (some (eraseSec sec)) t
      rw [hd, hd2]
      simp [eraseSec, eraseB]
    | some b =>
      cases b with
      | table ls ix =>
        have hdec : sec.blocks.dropLast ++ [BlockI.table ls ix] = sec.blocks :=
          List.dropLast_append_getLast? _ hgl
        have hd := addTableLineI_last_table t sec sec.title sec.blocks.dropLast ls ix n
          (by rw [hdec])
        have he : (eraseSec sec).blocks.getLast? = some (Block.table ls) := by
          simp [eraseSec, List.getLast?_map, hgl, eraseB]
        have hdec2 : (eraseSec sec).blocks.dropLast ++ [Block.table ls]
            = (eraseSec sec).blocks :=
          List.dropLast_append_getLast? _ he
        have hd2 := addTableLine_last_table t (eraseSec sec) (eraseSec sec).title
          (eraseSec sec).blocks.dropLast ls (by rw [hdec2])
        show (addTableLineI (some sec) t n).map eraseSec
          = addTableLine (some (eraseSec sec)) t
        rw [hd, hd2]
        simp [eraseSec, eraseB, List.map_dropLast]
      | speech sp ps ix =>
        have hd := addTableLineI_not_table sec t n (by simp [hgl])
        have he : (eraseSec sec).blocks.getLast? = some (Block.speech sp ps) := by
          simp [eraseSec, List.getLast?_map, hgl, eraseB]
        have hd2 := addTableLine_not_table (eraseSec sec) t (by simp [he])
        show (addTableLineI (some sec) t n).map eraseSec
          = addTableLine (some (eraseSec sec)) t
        rw [hd, hd2]
        simp [eraseSec, eraseB]
      | image r ix =>
        have hd := addTableLineI_not_table sec t n (by simp [hgl])
        have he : (eraseSec sec).blocks.getLast? = some (Block.image r) := by
          simp [eraseSec, List.getLast?_map, hgl, eraseB]
        have hd2 := addTableLine_not_table (eraseSec sec) t (by simp [he])
        show (addTableLineI (some sec) t n).map eraseSec
          = addTableLine (some (eraseSec sec)) t
        rw [hd, hd2]
        simp [eraseSec, eraseB]
      | quote tx ix =>
        have hd := addTableLineI_not_table sec t n (by simp [hgl])
        have he : (eraseSec sec).blocks.getLast? = some (Block.quote tx) := by
          simp [eraseSec, List.getLast?_map, hgl, eraseB]
        have hd2 := addTableLine_not_table (eraseSec sec) t (by simp [he])
        show (addTableLineI (some sec) t n).map eraseSec
          = addTableLine (some (eraseSec sec)) t
        rw [hd, hd2]
        simp [eraseSec, eraseB]

/-- One instrumented step erases to one plain step. -/
theorem eraseSt_stepLineI (n : Nat) (st : IState) (l : String) :
    eraseSt (stepLineI n st l) = stepLine (eraseSt st) l := by
  cases hh : headingMatch l with
  | some title =>
    rw [stepLine_eq_heading _ hh]
    simp only [stepLineI, hh]
    rw [← eraseSt_flushCurI]
    cases hc : (flushCurI st).cur <;> simp [eraseSt, hc, eraseSec]
  | none =>
    cases hs : speakerMatch l with
    | some p =>
      obtain ⟨name, rest⟩ := p
      rw [stepLine_eq_speaker _ hh hs]
      simp only [stepLineI, hh, hs]
      rw [← eraseSt_flushCurI]
      simp [eraseSt]
    | none =>
      by_cases ht : jsTrim l = ""
      · rw [stepLine_eq_blank _ hh hs ht]
        simp only [stepLineI, hh, hs]
        rw [if_pos ht]
      · by_cases hi : isImageLine (jsTrim l) = true
        · rw [stepLine_eq_image _ hh hs ht hi]
          simp only [stepLineI, hh, hs]
          rw [if_neg ht, if_pos hi, ← eraseSt_flushCurI]
          simp [eraseSt, pushBI_erase, eraseB]
        · by_cases hp : (jsTrim l).data.head? = some '|'
          · rw [stepLine_eq_table _ hh hs ht hi hp]
            simp only [stepLineI, hh, hs]
            rw [if_neg ht, if_neg hi, if_pos hp, ← eraseSt_flushCurI]
            simp [eraseSt, addTableLineI_erase]
          · by_cases hq : (jsTrim l).data.head? = some '>'
            · rw [stepLine_eq_quote _ hh hs ht hi hp hq]
              simp only [stepLineI, hh, hs]
              rw [if_neg ht, if_neg hi, if_neg hp, if_pos hq, ← eraseSt_flushCurI]
              simp [eraseSt, pushBI_erase, eraseB]
            · rw [stepLine_eq_plain _ hh hs ht hi hp hq]
              simp only [stepLineI, hh, hs]
              rw [if_neg ht, if_neg hi, if_neg hp, if_neg hq]
              cases hb : st.curBlock with
              | none =>
                have hb2 : (eraseSt st).curBlock = none := by simp [eraseSt, hb]
                rw [hb2]
              | some p =>
                obtain ⟨sp, ps, ix⟩ := p
                have hb2 : (eraseSt st).curBlock = some (sp, ps) := by
                  simp [eraseSt, hb]
                rw [hb2]
                simp [eraseSt]

/-- Running the instrumented parser erases to the plain fold. -/
theorem eraseSt_runI (ls : List String) : ∀ (n : Nat) (st : IState),
    eraseSt (runI n st ls) = ls.foldl stepLine (eraseSt st) := by
  induction ls with
  | nil => intro n st; rfl
  | cons l ls ih =>
    intro n st
    show eraseSt (runI (n + 1) (stepLineI n st l) ls)
      = List.foldl stepLine (stepLine (eraseSt st) l) ls
    rw [ih, eraseSt_stepLineI]

/-- The final section list commutes with erasure. -/
theorem finishI_erase (st : IState) :
    finishP (eraseSt st) = (finishI st).map eraseSec := by
  unfold finishP finishI
  rw [← eraseSt_flushCurI]
  cases hc : (flushCurI st).cur <;> simp [eraseSt, hc]

/-- The plain dialogue parser is the erasure of the instrumented one. -/
theorem parseDialogue_eraseI (body : String) :
    parseDialogue body = (parseDialogueI body).map eraseSec := by
  unfold parseDialogue parseLines parseDialogueI
  rw [← finishI_erase, eraseSt_runI]
  rfl

/-- The lazy speaker scan captures at least one character. -/
theorem speakerScan_name_ne_nil : ∀ (tl acc nm r : List Char),
    speakerScan acc tl = some (nm, r) → nm ≠ [] := by
  intro tl
  induction tl with
  | nil => intro acc nm r h; exact absurd h (by simp [speakerScan])
  | cons c tl ih =>
    intro acc nm r h
    simp only [speakerScan] at h
    by_cases hc : tl.take 3 = ['*', '*', ':']
    · rw [if_pos hc] at h
      rw [Option.some.injEq, Prod.mk.injEq] at h
      obtain ⟨h1, h2⟩ := h
      rw [← h1]
      simp
    · rw [if_neg hc] at h
      exact ih (acc ++ [c]) nm r h

/-- A matched speaker line always carries a non-empty speaker name: the
first capture group of the speaker pattern requires at least one character. -/
theorem speakerMatch_name_ne {l name rest : String}
    (h : speakerMatch l = some (name, rest)) : name ≠ "" := by
  unfold speakerMatch at h
  split at h
  · rename_i rest' hld
    split at h
    · rename_i nm tail hscan
      rw [Option.some.injEq, Prod.mk.injEq] at h
      obtain ⟨h1, h2⟩ := h
      intro hcon
      rw [← h1] at hcon
      have hnil : nm = [] := by
        have := congrArg String.data hcon
        simpa using this
      exact speakerScan_name_ne_nil rest' [] nm tail hscan hnil
    · exact absurd h (by simp)
  · exact absurd h (by simp)

/-! #### The source-order invariant of the instrumented parser -/

/-- Membership in the flattened index list of a section. -/
theorem mem_flatI {s : SectI} {b : BlockI} {x : Nat} (hb : b ∈ s.blocks)
    (hx : x ∈ idxsOf b) : x ∈ flatI s := by
  unfold flatI
  exact List.mem_flatMap.mpr ⟨b, hb, hx⟩

/-- Flattened indices of a section extended by one block. -/
theorem flatI_append (title : String) (bs : List BlockI) (b : BlockI) :
    flatI ⟨title, bs ++ [b]⟩ = flatI ⟨title, bs⟩ ++ idxsOf b := by
  simp [flatI, List.flatMap_append]

/-- The state invariant is monotone in the line bound. -/
theorem stOK_mono {st : IState} {n m : Nat} (h : stOK st n) (hnm : n ≤ m) :
    stOK st m := by
  obtain ⟨h1, h2, h3⟩ := h
  refine ⟨h1, ?_, ?_⟩
  · intro s hs
    exact ⟨(h2 s hs).1, fun i hi => lt_of_lt_of_le ((h2 s hs).2 i hi) hnm⟩
  · intro sp ps ix hb
    obtain ⟨e1, e2, e3, e4, e5⟩ := h3 sp ps ix hb
    exact ⟨e1, e2, e3, fun i hi => lt_of_lt_of_le (e4 i hi) hnm, e5⟩

/-- Pushing onto a well-formed section whose indices all precede the new
block keeps it well-formed. -/
theorem secOK_push (sec : SectI) (b : BlockI) (hsec : secOK sec) (hb : blkOK b)
    (hcross : ∀ a ∈ flatI sec, ∀ y ∈ idxsOf b, a < y) :
    secOK ⟨sec.title, sec.blocks ++ [b]⟩ := by
  obtain ⟨hall, hpw⟩ := hsec
  constructor
  · intro x hx
    rcases List.mem_append.mp hx with h | h
    · exact hall x h
    · rw [List.mem_singleton] at h
      subst h
      exact hb
  · rw [List.pairwise_append]
    refine ⟨hpw, by simp, ?_⟩
    intro x hx y hy
    rw [List.mem_singleton] at hy
    subst hy
    intro i hi
    exact hcross i (mem_flatI hx hi)

/-- The index bound of a pushed section. -/
theorem secLt_push (sec : SectI) (b : BlockI) {m : Nat} (hlt : secLt sec m)
    (hb : ∀ y ∈ idxsOf b, y < m) :
    secLt ⟨sec.title, sec.blocks ++ [b]⟩ m := by
  intro i hi
  rw [flatI_append] at hi
  rcases List.mem_append.mp hi with h | h
  · exact hlt i h
  · exact hb i h

/-- Flushing the open speech block preserves the state invariant. -/
theorem stOK_flushCurI {st : IState} {n : Nat} (h : stOK st n) :
    stOK (flushCurI st) n := by
  rcases st with ⟨d, c, s, b⟩
  rcases b with _ | ⟨sp, ps, ix⟩
  · have he : flushCurI ⟨d, c, s, none⟩ = ⟨d, c, s, none⟩ := by cases c <;> rfl
    rwa [he]
  · rcases c with _ | sec
    · obtain ⟨h1, h2, h3⟩ := h
      have he : flushCurI ⟨d, none, s, some (sp, ps, ix)⟩ = ⟨d, none, s, none⟩ := rfl
      rw [he]
      refine ⟨h1, ?_, ?_⟩
      · intro s' hs'
        exact nomatch hs'
      · intro sp' ps' ix' hb
        exact nomatch hb
    · obtain ⟨h1, h2, h3⟩ := h
      obtain ⟨hsec, hlt⟩ := h2 sec rfl
      obtain ⟨e1, e2, e3, e4, e5⟩ := h3 sp ps ix rfl
      refine ⟨h1, ?_, ?_⟩
      · intro s' hs'
        injection hs' with hs'
        subst hs'
        constructor
        · refine secOK_push sec _ hsec ⟨e2, e3, ?_⟩ ?_
          · intro sp' ps' ix' heq
            injection heq with a1 a2 a3
            subst a1
            exact e1
          · intro a ha y hy
            exact e5 sec rfl a ha y hy
        · exact secLt_push sec _ hlt e4
      · intro sp' ps' ix' hb
        exact nomatch hb

/-- The initial state satisfies the invariant. -/
theorem stOK_init : stOK ⟨[], none, none, none⟩ 0 := by
  refine ⟨?_, ?_, ?_⟩
  · intro s hs
    exact nomatch hs
  · intro s hs
    exact nomatch hs
  · intro sp ps ix hb
    exact nomatch hb

/-- One instrumented step preserves the invariant, advancing the bound. -/
theorem stOK_stepLineI {st : IState} {n : Nat} (h : stOK st n) (l : String) :
    stOK (stepLineI n st l) (n + 1) := by
  obtain ⟨a1, a2, a3⟩ := stOK_flushCurI h
  cases hh : headingMatch l with
  | some title =>
    simp only [stepLineI, hh]
    refine ⟨?_, ?_, fun _ _ _ hb => nomatch hb⟩
    · intro s hs
      rcases List.mem_append.mp hs with hs | hs
      · exact a1 s hs
      · cases hc : (flushCurI st).cur with
        | none => rw [hc] at hs; exact nomatch hs
        | some sec =>
          rw [hc] at hs
          have hss : s = sec := by simpa using hs
          rw [hss]
          exact (a2 sec hc).1
    · intro s' hs'
      injection hs' with hs'
      subst hs'
      refine ⟨⟨?_, List.Pairwise.nil⟩, ?_⟩
      · intro b hb
        exact nomatch hb
      · intro i hi
        simp [flatI] at hi
  | none =>
    cases hs : speakerMatch l with
    | some p =>
      obtain ⟨name, rest⟩ := p
      simp only [stepLineI, hh, hs]
      refine ⟨a1, ?_, ?_⟩
      · intro s' hs'
        obtain ⟨hsec, hlt⟩ := a2 s' hs'
        exact ⟨hsec, fun i hi => Nat.lt_succ_of_lt (hlt i hi)⟩
      · intro sp ps ix hb
        injection hb with hb
        simp only [Prod.mk.injEq] at hb
        obtain ⟨rfl, rfl, rfl⟩ := hb
        refine ⟨speakerMatch_name_ne hs, by simp, by simp, ?_, ?_⟩
        · intro i hi
          rw [List.mem_singleton] at hi
          subst hi
          exact Nat.lt_succ_self _
        · intro s' hs' a ha y hy
          rw [List.mem_singleton] at hy
          subst hy
          exact (a2 s' hs').2 a ha
    | none =>
      by_cases ht : jsTrim l = ""
      · simp only [stepLineI, hh, hs]
        rw [if_pos ht]
        exact stOK_mono h (Nat.le_succ n)
      · by_cases hi : isImageLine (jsTrim l) = true
        · simp only [stepLineI, hh, hs]
          rw [if_neg ht, if_pos hi]
          refine ⟨a1, ?_, ?_⟩
          · intro s' hs'
            have hs2 : pushBI (flushCurI st).cur (BlockI.image (jsTrim l) [n])
                = some s' := hs'
            cases hc : (flushCurI st).cur with
            | none => rw [hc] at hs2; exact nomatch hs2
            | some sec =>
              rw [hc] at hs2
              simp only [pushBI, Option.map_some] at hs2
              injection hs2 with hs2
              subst hs2
              obtain ⟨hsec, hlt⟩ := a2 sec hc
              constructor
              · refine secOK_push sec _ hsec ⟨by simp [idxsOf], by simp [idxsOf],
                  fun _ _ _ heq => nomatch heq⟩ ?_
                intro a ha y hy
                simp only [idxsOf, List.mem_singleton] at hy
                subst hy
                exact hlt a ha
              · refine secLt_push sec _ (fun i hi => Nat.lt_succ_of_lt (hlt i hi)) ?_
                intro y hy
                simp only [idxsOf, List.mem_singleton] at hy
                subst hy
                exact Nat.lt_succ_self _
          · intro sp ps ix hb
            have hb2 : (flushCurI st).curBlock = some (sp, ps, ix) := hb
            rw [flushCurI_curBlock] at hb2
            exact nomatch hb2
        · by_cases hp : (jsTrim l).data.head? = some '|'
          · simp only [stepLineI, hh, hs]
            rw [if_neg ht, if_neg hi, if_pos hp]
            refine ⟨a1, ?_, ?_⟩
            · intro s' hs'
              have hs2 : addTableLineI (flushCurI st).cur (jsTrim l) n = some s' := hs'
              cases hc : (flushCurI st).cur with
              | none => rw [hc] at hs2; exact nomatch hs2
              | some sec =>
                rw [hc] at hs2
                obtain ⟨hsec, hlt⟩ := a2 sec hc
                cases hgl : sec.blocks.getLast? with
                | some bl =>
                  cases bl with
                  | table ls ix =>
                    have hdec : sec.blocks.dropLast ++ [BlockI.table ls ix]
                        = sec.blocks := List.dropLast_append_getLast? _ hgl
                    rw [addTableLineI_last_table (jsTrim l) sec sec.title
                      sec.blocks.dropLast ls ix n (by rw [hdec])] at hs2
                    injection hs2 with hs2
                    subst hs2
                    obtain ⟨hall, hpw⟩ := hsec
                    have hmemT : BlockI.table ls ix ∈ sec.blocks := by
                      rw [← hdec]
                      exact List.mem_append_right _ (List.mem_singleton.mpr rfl)
                    have hixlt : ∀ i ∈ ix, i < n := by
                      intro i hi
                      exact hlt i (mem_flatI hmemT (by simpa [idxsOf] using hi))
                    have hpw2 : List.Pairwise blkLt
                        (sec.blocks.dropLast ++ [BlockI.table ls ix]) := by
                      rw [hdec]
                      exact hpw
                    rw [List.pairwise_append] at hpw2
                    have hallD : ∀ b ∈ sec.blocks.dropLast, blkOK b := by
                      intro b hbm
                      refine hall b ?_
                      rw [← hdec]
                      exact List.mem_append_left _ hbm
                    have hltD : secLt ⟨sec.title, sec.blocks.dropLast⟩ n := by
                      intro i hi
                      obtain ⟨blk, hblk, hiblk⟩ := List.mem_flatMap.mp hi
                      refine hlt i (mem_flatI ?_ hiblk)
                      rw [← hdec]
                      exact List.mem_append_left _ hblk
                    constructor
                    · refine secOK_push ⟨sec.title, sec.blocks.dropLast⟩ _
                        ⟨hallD, hpw2.1⟩ ?_ ?_
                      · refine ⟨by simp [idxsOf], ?_, fun _ _ _ heq => nomatch heq⟩
                        simp only [idxsOf]
                        rw [List.pairwise_append]
                        have hixpw : List.Pairwise (· < ·) ix := by
                          have := (hall _ hmemT).2.1
                          simpa [idxsOf] using this
                        refine ⟨hixpw, by simp, ?_⟩
                        intro x hx y hy
                        rw [List.mem_singleton] at hy
                        subst hy
                        exact hixlt x hx
                      · intro a ha y hy
                        obtain ⟨blk, hblk, hablk⟩ := List.mem_flatMap.mp ha
                        simp only [idxsOf] at hy
                        rcases List.mem_append.mp hy with hy | hy
                        · exact hpw2.2.2 blk hblk _ (List.mem_singleton.mpr rfl)
                            a hablk y (by simpa [idxsOf] using hy)
                        · rw [List.mem_singleton] at hy
                          subst hy
                          refine hlt a (mem_flatI ?_ hablk)
                          rw [← hdec]
                          exact List.mem_append_left _ hblk
                    · refine secLt_push ⟨sec.title, sec.blocks.dropLast⟩ _
                        (fun i hi => Nat.lt_succ_of_lt (hltD i hi)) ?_
                      intro y hy
                      simp only [idxsOf] at hy
                      rcases List.mem_append.mp hy with hy | hy
                      · exact Nat.lt_succ_of_lt (hixlt y hy)
                      · rw [List.mem_singleton] at hy
                        subst hy
                        exact Nat.lt_succ_self _
                  | speech sp ps ix =>
                    rw [addTableLineI_not_table sec (jsTrim l) n (by simp [hgl])] at hs2
                    injection hs2 with hs2
                    subst hs2
                    constructor
                    · refine secOK_push sec _ hsec ⟨by simp [idxsOf], by simp [idxsOf],
                        fun _ _ _ heq => nomatch heq⟩ ?_
                      intro a ha y hy
                      simp only [idxsOf, List.mem_singleton] at hy
                      subst hy
                      exact hlt a ha
                    · refine secLt_push sec _ (fun i hi => Nat.lt_succ_of_lt (hlt i hi)) ?_
                      intro y hy
                      simp only [idxsOf, List.mem_singleton] at hy
                      subst hy
                      exact Nat.lt_succ_self _
                  | image r ix =>
                    rw [addTableLineI_not_table sec (jsTrim l) n (by simp [hgl])] at hs2
                    injection hs2 with hs2
                    subst hs2
                    constructor
                    · refine secOK_push sec _ hsec ⟨by simp [idxsOf], by simp [idxsOf],
                        fun _ _ _ heq => nomatch heq⟩ ?_
                      intro a ha y hy
                      simp only [idxsOf, List.mem_singleton] at hy
                      subst hy
                      exact hlt a ha
                    · refine secLt_push sec _ (fun i hi => Nat.lt_succ_of_lt (hlt i hi)) ?_
                      intro y hy
                      simp only [idxsOf, List.mem_singleton] at hy
                      subst hy
                      exact Nat.lt_succ_self _
                  | quote tx ix =>
                    rw [addTableLineI_not_table sec (jsTrim l) n (by simp [hgl])] at hs2
                    injection hs2 with hs2
                    subst hs2
                    constructor
                    · refine secOK_push sec _ hsec ⟨by simp [idxsOf], by simp [idxsOf],
                        fun _ _ _ heq => nomatch heq⟩ ?_
                      intro a ha y hy
                      simp only [idxsOf, List.mem_singleton] at hy
                      subst hy
                      exact hlt a ha
                    · refine secLt_push sec _ (fun i hi => Nat.lt_succ_of_lt (hlt i hi)) ?_
                      intro y hy
                      simp only [idxsOf, List.mem_singleton] at hy
                      subst hy
                      exact Nat.lt_succ_self _
                | none =>
                  rw [addTableLineI_not_table sec (jsTrim l) n (by simp [hgl])] at hs2
                  injection hs2 with hs2
                  subst hs2
                  constructor
                  · refine secOK_push sec _ hsec ⟨by simp [idxsOf], by simp [idxsOf],
                      fun _ _ _ heq => nomatch heq⟩ ?_
                    intro a ha y hy
                    simp only [idxsOf, List.mem_singleton] at hy
                    subst hy
                    exact hlt a ha
                  · refine secLt_push sec _ (fun i hi => Nat.lt_succ_of_lt (hlt i hi)) ?_
                    intro y hy
                    simp only [idxsOf, List.mem_singleton] at hy
                    subst hy
                    exact Nat.lt_succ_self _
            · intro sp ps ix hb
              have hb2 : (flushCurI st).curBlock = some (sp, ps, ix) := hb
              rw [flushCurI_curBlock] at hb2
              exact nomatch hb2
          · by_cases hq : (jsTrim l).data.head? = some '>'
            · simp only [stepLineI, hh, hs]
              rw [if_neg ht, if_neg hi, if_neg hp, if_pos hq]
              refine ⟨a1, ?_, ?_⟩
              · intro s' hs'
                have hs2 : pushBI (flushCurI st).cur
                    (BlockI.quote (dropQuoteMark (jsTrim l)) [n]) = some s' := hs'
                cases hc : (flushCurI st).cur with
                | none => rw [hc] at hs2; exact nomatch hs2
                | some sec =>
                  rw [hc] at hs2
                  simp only [pushBI, Option.map_some] at hs2
                  injection hs2 with hs2
                  subst hs2
                  obtain ⟨hsec, hlt⟩ := a2 sec hc
                  constructor
                  · refine secOK_push sec _ hsec ⟨by simp [idxsOf], by simp [idxsOf],
                      fun _ _ _ heq => nomatch heq⟩ ?_
                    intro a ha y hy
                    simp only [idxsOf, List.mem_singleton] at hy
                    subst hy
                    exact hlt a ha
                  · refine secLt_push sec _ (fun i hi => Nat.lt_succ_of_lt (hlt i hi)) ?_
                    intro y hy
                    simp only [idxsOf, List.mem_singleton] at hy
                    subst hy
                    exact Nat.lt_succ_self _
              · intro sp ps ix hb
                have hb2 : (flushCurI st).curBlock = some (sp, ps, ix) := hb
                rw [flushCurI_curBlock] at hb2
                exact nomatch hb2
            · simp only [stepLineI, hh, hs]
              rw [if_neg ht, if_neg hi, if_neg hp, if_neg hq]
              cases hcb : st.curBlock with
              | none => exact stOK_mono h (Nat.le_succ n)
              | some p =>
                obtain ⟨sp, ps, ix⟩ := p
                obtain ⟨h1, h2, h3⟩ := h
                obtain ⟨e1, e2, e3, e4, e5⟩ := h3 sp ps ix hcb
                refine ⟨h1, ?_, ?_⟩
                · intro s' hs'
                  obtain ⟨hsec, hlt⟩ := h2 s' hs'
                  exact ⟨hsec, fun i hi => Nat.lt_succ_of_lt (hlt i hi)⟩
                · intro sp' ps' ix' hb'
                  injection hb' with hb'
                  simp only [Prod.mk.injEq] at hb'
                  obtain ⟨rfl, rfl, rfl⟩ := hb'
                  refine ⟨e1, by simp, ?_, ?_, ?_⟩
                  · rw [List.pairwise_append]
                    refine ⟨e3, by simp, ?_⟩
                    intro x hx y hy
                    rw [List.mem_singleton] at hy
                    subst hy
                    exact e4 x hx
                  · intro i him
                    rcases List.mem_append.mp him with him | him
                    · exact Nat.lt_succ_of_lt (e4 i him)
                    · rw [List.mem_singleton] at him
                      subst him
                      exact Nat.lt_succ_self _
                  · intro s' hs' a ha y hy
                    rcases List.mem_append.mp hy with hy | hy
                    · exact e5 s' hs' a ha y hy
                    · rw [List.mem_singleton] at hy
                      subst hy
                      exact (h2 s' hs').2 a ha

/-- Running the instrumented parser preserves the invariant. -/
theorem stOK_runI (ls : List String) : ∀ (n : Nat) (st : IState),
    stOK st n → stOK (runI n st ls) (n + ls.length) := by
  induction ls with
  | nil => intro n st h; simpa using h
  | cons l ls ih =>
    intro n st h
    have h2 := ih (n + 1) (stepLineI n st l) (stOK_stepLineI h l)
    have hlen : n + (l :: ls).length = n + 1 + ls.length := by
      simp only [List.length_cons]
      omega
    rw [hlen]
    exact h2

/-- Every section emitted by `finishI` is well-formed. -/
theorem finishI_secOK {st : IState} {n : Nat} (h : stOK st n) :
    ∀ s ∈ finishI st, secOK s := by
  obtain ⟨a1, a2, a3⟩ := stOK_flushCurI h
  intro s hs
  unfold finishI at hs
  rcases List.mem_append.mp hs with hs | hs
  · exact a1 s hs
  · cases hc : (flushCurI st).cur with
    | none => rw [hc] at hs; exact nomatch hs
    | some sec =>
      rw [hc] at hs
      have hss : s = sec := by simpa using hs
      rw [hss]
      exact (a2 sec hc).1

/-- Every section of the instrumented parse is well-formed. -/
theorem parseDialogueI_secOK (body : String) :
    ∀ s ∈ parseDialogueI body, secOK s := by
  unfold parseDialogueI
  exact finishI_secOK (stOK_runI (splitNl body) 0 _ stOK_init)

/-- Rendered output is not always free of heading-marker lines: a trimmed
speech continuation line that itself starts with the heading marker is
re-emitted (joined by a break tag) as a line matching the heading pattern,
so the re-parse of the rendered fragment is non-empty for this body. -/
theorem rendered_heading_line :
    (∃ l ∈ splitNl (sectionsHtml (parseDialogue "## T\n**B**: hi\n ## X")),
        headingMatch l ≠ none)
      ∧ parseDialogue (sectionsHtml (parseDialogue "## T\n**B**: hi\n ## X")) ≠ [] := by
  decide

/-! ### Claims -/

/-- Claim C1 (corrected): for every input string, `renderInline` (also
exposed as `escapeHtml`) escapes exactly the three HTML-sensitive
characters `&`, `<`, `>` — as one simultaneous character map — and only
then applies the two substitutions turning bold markers into a
strong-emphasis wrapping and Markdown image references into an image
element. (The double quote, fourth of "the four HTML-sensitive
characters", is not escaped.) -/
theorem claim_C1 : ∀ s : String,
    escapeHtml s = renderInline s ∧ renderInline s = renderInlineSpec3 s := by
  intro s
  refine ⟨rfl, ?_⟩
  unfold renderInline renderInlineSpec3
  rw [escape3_eq_flatMap]

/-- Claim C1 counterexample: on the one-character string `"`, the renderer
is not "escape the four HTML-sensitive characters, then substitute": the
double quote passes through unescaped. -/
theorem claim_C1_cex : renderInline "\"" ≠ renderInlineSpec4 "\"" := by
  decide

/-- Claim C2 (confirmed): for every document whose text — after stripping a
leading byte-order mark — begins with a front-matter delimiter line with a
matching closing delimiter (a well-formed front-matter block: at least one
line between the delimiters, none of which is itself `---`), extraction
returns the body equal to the text after the closing delimiter line, and a
mapping holding exactly the keys declared by `key: value` lines between
the delimiters: a key looks up to the trimmed value of its last declaring
line, every looked-up value comes from some declaring line, and carries no
leading or trailing whitespace. -/
theorem claim_C2 : ∀ (b : Bool) (fm bodyLs : List String) (raw : String),
    raw = (if b then "﻿" else "") ++ "---\n" ++ unlines (fm ++ "---" :: bodyLs) →
    fm ≠ [] → bodyLs ≠ [] →
    (∀ l ∈ fm, l ≠ "---") →
    (∀ l ∈ fm, noNl l = true) →
    (∀ l ∈ bodyLs, noNl l = true) →
    (parseFrontmatter raw).2 = unlines bodyLs
    ∧ (∀ k v, lookupMeta k (parseFrontmatter raw).1 = some v
        ↔ lookupMeta k (fm.filterMap parseKV).reverse = some v)
    ∧ (∀ k v, lookupMeta k (parseFrontmatter raw).1 = some v →
        (∃ l ∈ fm, parseKV l = some (k, v))
        ∧ (∀ c, v.data.head? = some c → isJsWs c = false)
        ∧ (∀ c, v.data.getLast? = some c → isJsWs c = false)) := by
  intro b fm bodyLs raw hraw hfm hbody hdash hfmNl hbodyNl
  subst hraw
  have hstrip : stripBOM ((if b then "﻿" else "") ++ "---\n"
      ++ unlines (fm ++ "---" :: bodyLs))
      = "---\n" ++ unlines (fm ++ "---" :: bodyLs) := by
    cases b
    · show stripBOM ("" ++ "---\n" ++ unlines (fm ++ "---" :: bodyLs)) = _
      unfold stripBOM
      rw [show ("" ++ "---\n" ++ unlines (fm ++ "---" :: bodyLs))
          = "---\n" ++ unlines (fm ++ "---" :: bodyLs) by
        apply String.ext
        rw [String.data_append, String.data_append, String.data_append]
        rfl]
      rw [String.data_append]
      rfl
    · show stripBOM ("﻿" ++ ("---\n" ++ unlines (fm ++ "---" :: bodyLs))) = _
      unfold stripBOM
      rw [String.data_append]
      rfl
  have hsplit1 : splitNl ("---\n" ++ unlines (fm ++ "---" :: bodyLs))
      = "---" :: splitNl (unlines (fm ++ "---" :: bodyLs)) := by
    unfold splitNl
    rw [String.data_append]
    rw [show ("---\n").data = ['-', '-', '-', '\n'] from rfl]
    rw [show (['-', '-', '-', '\n'] ++ (unlines (fm ++ "---" :: bodyLs)).data)
        = '-' :: '-' :: '-' :: '\n' :: (unlines (fm ++ "---" :: bodyLs)).data by simp]
    rw [splitNlAux_step (by decide) (by decide),
        splitNlAux_step (by decide) (by decide),
        splitNlAux_step (by decide) (by decide)]
    rfl
  have hsplit2 : splitNl (unlines (fm ++ "---" :: bodyLs)) = fm ++ "---" :: bodyLs := by
    apply splitNl_unlines
    · cases fm <;> simp
    · intro l hl
      rcases List.mem_append.mp hl with h | h
      · exact hfmNl l h
      · rcases List.mem_cons.mp h with h | h
        · subst h
          rfl
        · exact hbodyNl l h
  obtain ⟨f0, fmTail, rfl⟩ : ∃ f0 fmTail, fm = f0 :: fmTail := by
    rcases fm with _ | ⟨f0, fmTail⟩
    · exact absurd rfl hfm
    · exact ⟨f0, fmTail, rfl⟩
  have hparse : parseFrontmatter ((if b then "﻿" else "") ++ "---\n"
      ++ unlines ((f0 :: fmTail) ++ "---" :: bodyLs))
      = (((f0 :: fmTail).foldl addMeta []), unlines bodyLs) := by
    unfold parseFrontmatter
    rw [hstrip, hsplit1, hsplit2]
    rw [show ((f0 :: fmTail) ++ "---" :: bodyLs) = f0 :: (fmTail ++ "---" :: bodyLs) by simp]
    split
    · rename_i first rest heq
      injection heq with h1 h2
      injection h2 with h3 h4
      subst h3
      subst h4
      rw [show fmSplit (fmTail ++ "---" :: bodyLs) = some (fmTail, bodyLs) from
        fmSplit_concat fmTail bodyLs (fun l hl => hdash l (by simp [hl])) hbody]
    · rename_i hx
      exact absurd rfl (hx f0 (fmTail ++ "---" :: bodyLs))
  rw [hparse]
  refine ⟨rfl, ?_, ?_⟩
  · intro k v
    rw [show lookupMeta k ((f0 :: fmTail).foldl addMeta [])
        = lookupMeta k ((f0 :: fmTail).filterMap parseKV).reverse by
      rw [lookupMeta_foldl_addMeta]
      simp [lookupMeta]]
  · intro k v hv
    rw [show lookupMeta k ((f0 :: fmTail).foldl addMeta [])
        = lookupMeta k ((f0 :: fmTail).filterMap parseKV).reverse by
      rw [lookupMeta_foldl_addMeta]
      simp [lookupMeta]] at hv
    have hmem : (k, v) ∈ ((f0 :: fmTail).filterMap parseKV).reverse := by
      clear hparse
      generalize ((f0 :: fmTail).filterMap parseKV).reverse = ps at hv
      induction ps with
      | nil => simp [lookupMeta] at hv
      | cons p tl ih =>
        obtain ⟨a, w⟩ := p
        by_cases hk : a = k
        · subst hk
          simp only [lookupMeta, if_pos rfl] at hv
          injection hv with hv
          subst hv
          exact List.mem_cons_self _ _
        · simp only [lookupMeta, if_neg hk] at hv
          exact List.mem_cons_of_mem _ (ih hv)
    rw [List.mem_reverse] at hmem
    obtain ⟨l, hl, hkv⟩ := List.mem_filterMap.mp hmem
    exact ⟨⟨l, hl, hkv⟩, (parseKV_val_trimmed hkv).1, (parseKV_val_trimmed hkv).2⟩

/-- Claim C2 witness: a concrete two-key document with a byte-order mark,
untrimmed values and a duplicate key. -/
theorem claim_C2_witness :
    (parseFrontmatter ("﻿" ++ "---\n"
        ++ unlines (["title:  Hello ", "x", "title: Bye", "date: 2024-01-02"]
            ++ "---" :: ["body line", ""]))).2
      = unlines ["body line", ""]
    ∧ (∀ k v,
        lookupMeta k (parseFrontmatter ("﻿" ++ "---\n"
            ++ unlines (["title:  Hello ", "x", "title: Bye", "date: 2024-01-02"]
                ++ "---" :: ["body line", ""]))).1 = some v
        ↔ lookupMeta k ((["title:  Hello ", "x", "title: Bye", "date: 2024-01-02"].filterMap
            parseKV)).reverse = some v)
    ∧ (∀ k v,
        lookupMeta k (parseFrontmatter ("﻿" ++ "---\n"
            ++ unlines (["title:  Hello ", "x", "title: Bye", "date: 2024-01-02"]
                ++ "---" :: ["body line", ""]))).1 = some v →
        (∃ l ∈ ["title:  Hello ", "x", "title: Bye", "date: 2024-01-02"],
            parseKV l = some (k, v))
        ∧ (∀ c, v.data.head? = some c → isJsWs c = false)
        ∧ (∀ c, v.data.getLast? = some c → isJsWs c = false)) :=
  claim_C2 true ["title:  Hello ", "x", "title: Bye", "date: 2024-01-02"]
    ["body line", ""] _ rfl (by decide) (by decide) (by decide) (by decide) (by decide)

/-- Claim C3 counterexample: a blank line does not terminate the open
speech block — the plain line `more`, separated from the speaker marker by
a blank line, is still appended to the same speech block. -/
theorem claim_C3_cex : parseDialogue "## A\n**B**: hi\n\nmore"
    = [⟨"A", [Block.speech "B" ["hi", "more"]]⟩] := by
  decide

/-- Claim C3 (corrected): during dialogue segmentation a blank line is a
no-op: it leaves the parser state (including the open speech block)
entirely unchanged, so it neither terminates the block nor contributes
content. -/
theorem claim_C3 : ∀ (st : PState) (line : String),
    jsTrim line = "" → stepLine st line = st := by
  intro st line h
  have hw := all_ws_of_trim_empty h
  exact stepLine_eq_blank st (headingMatch_none_of_ws hw) (speakerMatch_none_of_ws hw) h

/-- Claim C3 witness: a concrete blank line applied to a state with an open
speech block. -/
theorem claim_C3_witness :
    stepLine ⟨[], some ⟨"A", []⟩, some "B", some ("B", ["hi"])⟩ " "
      = ⟨[], some ⟨"A", []⟩, some "B", some ("B", ["hi"])⟩ :=
  claim_C3 _ " " (by decide)

/-- Claim C4 counterexample: two consecutive quote lines produce two
separate quote blocks, not one merged block. -/
theorem claim_C4_cex : parseDialogue "## A\n> x\n> y"
    = [⟨"A", [Block.quote "x", Block.quote "y"]⟩] := by
  decide

/-- Claim C4 (corrected): only table rows merge — a run of consecutive
table lines fed to the segmenter while a section is open (and whose last
block is not already a table) is emitted as exactly one table block
containing all the trimmed lines; image, quote and plain-text lines do not
merge (see the counterexample). -/
theorem claim_C4 : ∀ (st : PState) (sec : Sect) (tls : List String),
    st.cur = some sec → st.curBlock = none →
    (∀ ls, sec.blocks.getLast? ≠ some (Block.table ls)) →
    tls ≠ [] →
    (∀ l ∈ tls, (jsTrim l).data.head? = some '|') →
    List.foldl stepLine st tls
      = ⟨st.done, some ⟨sec.title, sec.blocks ++ [Block.table (tls.map jsTrim)]⟩,
         st.curSpeaker, none⟩ := by
  intro st sec tls hcur hb hnt hne hall
  rcases tls with _ | ⟨t, rest⟩
  · exact absurd rfl hne
  · have hp : (jsTrim t).data.head? = some '|' := hall t (by simp)
    have hh : headingMatch t = none := headingMatch_none_of_trim_head (by decide) hp
    have hsp : speakerMatch t = none := speakerMatch_none_of_trim_head (by decide) hp
    have htne : ¬ jsTrim t = "" := ne_empty_of_head hp
    have hi : ¬ isImageLine (jsTrim t) = true := by
      rw [isImageLine_false_of_head (by decide) hp]
      simp
    simp only [List.foldl_cons]
    rw [stepLine_eq_table st hh hsp htne hi hp, flushCur_of_curBlock_none hb, hcur, hb]
    rw [addTableLine_not_table sec (jsTrim t) hnt]
    have hext := foldl_table_extend rest
        ⟨st.done, some ⟨sec.title, sec.blocks ++ [Block.table [jsTrim t]]⟩,
         st.curSpeaker, none⟩ sec.title sec.blocks [jsTrim t] rfl rfl
        (fun l hl => hall l (by simp [hl]))
    rw [hext]
    simp

/-- Claim C4 witness: two table lines after a quote block merge into one
table block. -/
theorem claim_C4_witness :
    List.foldl stepLine ⟨[], some ⟨"T", [Block.quote "q"]⟩, none, none⟩ ["|a|", "|b|"]
      = ⟨[], some ⟨"T", [Block.quote "q"] ++ [Block.table (["|a|", "|b|"].map jsTrim)]⟩,
         none, none⟩ :=
  claim_C4 _ _ _ rfl rfl
    (by
      intro ls h
      rw [show ([Block.quote "q"] : List Block).getLast? = some (Block.quote "q") from rfl] at h
      exact Block.noConfusion (Option.some.inj h))
    (by decide) (by decide)

/-- Claim C5 counterexample: when the first raw row is a separator row, the
first remaining row is rendered as a body row (`td`), not as the header
row — the code keys the header on raw index 0, not on "first remaining". -/
theorem claim_C5_cex : renderTable ["|--|", "|1|"] ≠ renderTableSpec ["|--|", "|1|"] := by
  decide

/-- Claim C5 (corrected): whenever the first raw row is not a separator
row, `renderTable` agrees with the spec-side renderer: cells are the split
components between the boundary pipes, separator rows are discarded and
never rendered, the first remaining row is the header row and all other
remaining rows are body rows. (If the first raw row is a separator row, no
header row is emitted at all; see the counterexample.) -/
theorem claim_C5 : ∀ (l0 : String) (ls : List String),
    isSepRow (cellsOf l0) = false →
    renderTable (l0 :: ls) = renderTableSpec (l0 :: ls) := by
  intro l0 ls h
  have ht : tableRows 0 (l0 :: ls)
      = specRemainingRows (((l0 :: ls).map cellsOf).filter fun cs => !isSepRow cs) := by
    simp only [tableRows, List.map_cons, List.filter_cons]
    rw [tableRows_tail ls 1 (by omega)]
    simp [h, specRemainingRows]
  unfold renderTable renderTableSpec
  rw [ht]

/-- Claim C5 witness: the spec's own example, with one header row and one
body row and the separator row absent. -/
theorem claim_C5_witness :
    isSepRow (cellsOf "|a|b|") = false
    ∧ renderTable ["|a|b|", "|--|--|", "|1|2|"]
        = renderTableSpec ["|a|b|", "|--|--|", "|1|2|"] :=
  ⟨by decide, claim_C5 "|a|b|" ["|--|--|", "|1|2|"] (by decide)⟩

/-- Claim C6 (confirmed): in the exported script, the channel is a
two-valued classification: every emitted line's speaker is `left` or
`right`; a line emitted for a speech block carries the speaker's channel;
that channel is `right` exactly when the whitespace-normalized speaker
name begins with the child-character prefix `ひな`; and every line emitted
for a non-speech block is on the default channel `left`. -/
theorem claim_C6 :
    (∀ (sec : SectionV) (l : SLine), l ∈ toSceneLines sec →
      l.speaker = "left" ∨ l.speaker = "right")
    ∧ (∀ (sp : String) (ps : List String) (l : SLine),
        l ∈ blockLines (BlockV.speech sp ps) → l.speaker = speakerToChannel sp)
    ∧ (∀ sp : String, speakerToChannel sp = "right"
        ↔ ∃ rest, sp.data.filter (fun c => !isJsWs c) = 'ひ' :: 'な' :: rest)
    ∧ (∀ (b : BlockV) (l : SLine), (∀ sp ps, b ≠ BlockV.speech sp ps) →
        l ∈ blockLines b → l.speaker = "left") := by
  have hchan : ∀ sp : String, speakerToChannel sp = "left" ∨ speakerToChannel sp = "right" := by
    intro sp
    unfold speakerToChannel
    split
    · right; rfl
    · left; rfl
  have hspeech : ∀ (sp : String) (ps : List String) (l : SLine),
      l ∈ blockLines (BlockV.speech sp ps) → l.speaker = speakerToChannel sp := by
    intro sp ps l hl
    simp only [blockLines] at hl
    split at hl
    · simp at hl
    · rcases List.mem_singleton.mp hl with rfl
      rfl
  have hnonspeech : ∀ (b : BlockV) (l : SLine), (∀ sp ps, b ≠ BlockV.speech sp ps) →
      l ∈ blockLines b → l.speaker = "left" := by
    intro b l hb hl
    cases b with
    | speech sp ps => exact absurd rfl (hb sp ps)
    | quote t =>
      simp only [blockLines] at hl
      split at hl
      · simp at hl
      · rcases List.mem_singleton.mp hl with rfl
        rfl
    | image raw =>
      simp only [blockLines] at hl
      rcases List.mem_singleton.mp hl with rfl
      rfl
    | table ls =>
      simp only [blockLines] at hl
      split at hl
      · simp at hl
      · rcases List.mem_singleton.mp hl with rfl
        rfl
    | text t =>
      simp only [blockLines] at hl
      split at hl
      · simp at hl
      · rcases List.mem_singleton.mp hl with rfl
        rfl
  refine ⟨?_, hspeech, ?_, hnonspeech⟩
  · intro sec l hl
    unfold toSceneLines at hl
    rcases List.mem_cons.mp hl with rfl | hl
    · left; rfl
    · obtain ⟨b, _, hlb⟩ := List.mem_flatMap.mp hl
      cases b with
      | speech sp ps => rw [hspeech _ _ _ hlb]; exact hchan sp
      | quote t => left; exact hnonspeech _ _ (by intro sp ps h; cases h) hlb
      | image raw => left; exact hnonspeech _ _ (by intro sp ps h; cases h) hlb
      | table ls => left; exact hnonspeech _ _ (by intro sp ps h; cases h) hlb
      | text t => left; exact hnonspeech _ _ (by intro sp ps h; cases h) hlb
  · intro sp
    unfold speakerToChannel
    split
    · rename_i rest heq
      exact ⟨fun _ => ⟨rest, heq⟩, fun _ => rfl⟩
    · rename_i hx
      constructor
      · intro h
        exact absurd h (by decide)
      · intro ⟨rest, hrest⟩
        exact absurd hrest (by intro h; exact hx rest h)

/-- Claim C6 witness: a speech block of `ひなた` exports to the alternate
channel line. -/
theorem claim_C6_witness :
    (⟨"こんにちは", "right", some (0.15 : ℚ)⟩ : SLine).speaker
      = speakerToChannel "ひなた" :=
  claim_C6.2.1 "ひなた" ["こんにちは"] ⟨"こんにちは", "right", some (0.15 : ℚ)⟩
    (by
      rw [show blockLines (BlockV.speech "ひなた" ["こんにちは"])
          = [⟨"こんにちは", "right", some (0.15 : ℚ)⟩] from rfl]
      exact List.mem_singleton.mpr rfl)

/-- Claim C7 counterexample: with zero Markdown inputs, the video-script
exporter still deletes the pre-existing generated file `old.yaml` — the
pre-existing output files are not left unchanged. -/
theorem claim_C7_cex :
    FsAction.unlink "video-scripts/old.yaml" ∈ videoMain ["old.yaml"] [] (fun _ => "") := by
  rw [show videoMain ["old.yaml"] [] (fun _ => "")
      = [FsAction.mkdirp "video-scripts", FsAction.unlink "video-scripts/old.yaml",
         FsAction.warn "⚠ dialogue/*.md が見つかりません"] from rfl]
  simp

/-- Claim C7 (corrected): with zero matching Markdown files each build
logs its warning, writes no output file and completes normally (exit code
0 in the model, which maps uncaught exceptions — of which the pure
pipeline raises none — to the only non-zero exit). The HTML builder
performs no other action at all; the video-script exporter, however,
first creates its output directory and deletes every pre-existing
generated `.yaml` file there, and only then warns — pre-existing outputs
are not left unchanged. -/
theorem claim_C7 : ∀ (dirFiles outDirFiles : List String) (readF readF' : String → String),
    (dirFiles.filter (fun f => jsEndsWith f ".md")).length = 0 →
    dialogueMain dirFiles readF = [FsAction.warn "⚠ No dialogue files found"]
    ∧ videoMain outDirFiles dirFiles readF'
      = FsAction.mkdirp "video-scripts"
        :: (outDirFiles.filter (fun f => jsEndsWith f ".yaml")).map
            (fun f => FsAction.unlink ("video-scripts/" ++ f))
        ++ [FsAction.warn "⚠ dialogue/*.md が見つかりません"]
    ∧ (∀ p c, FsAction.write p c ∉ dialogueMain dirFiles readF)
    ∧ (∀ p c, FsAction.write p c ∉ videoMain outDirFiles dirFiles readF') := by
  intro dirFiles outDirFiles readF readF' h
  have h1 : dialogueMain dirFiles readF = [FsAction.warn "⚠ No dialogue files found"] := by
    unfold dialogueMain
    rw [if_pos h]
  have h2 : videoMain outDirFiles dirFiles readF'
      = FsAction.mkdirp "video-scripts"
        :: (outDirFiles.filter (fun f => jsEndsWith f ".yaml")).map
            (fun f => FsAction.unlink ("video-scripts/" ++ f))
        ++ [FsAction.warn "⚠ dialogue/*.md が見つかりません"] := by
    unfold videoMain
    rw [if_pos h]
  refine ⟨h1, h2, ?_, ?_⟩
  · intro p c hmem
    rw [h1] at hmem
    simp at hmem
  · intro p c hmem
    rw [h2] at hmem
    rcases List.mem_cons.mp hmem with h3 | h3
    · cases h3
    · rcases List.mem_append.mp h3 with h4 | h4
      · obtain ⟨f, _, h5⟩ := List.mem_map.mp h4
        cases h5
      · simp at h4

/-- Claim C7 witness: a directory with one non-Markdown file and one stale
generated file. -/
theorem claim_C7_witness :
    dialogueMain ["readme.txt"] (fun _ => "") = [FsAction.warn "⚠ No dialogue files found"]
    ∧ videoMain ["old.yaml"] ["readme.txt"] (fun _ => "")
      = FsAction.mkdirp "video-scripts"
        :: (["old.yaml"].filter (fun f => jsEndsWith f ".yaml")).map
            (fun f => FsAction.unlink ("video-scripts/" ++ f))
        ++ [FsAction.warn "⚠ dialogue/*.md が見つかりません"]
    ∧ (∀ p c, FsAction.write p c ∉ dialogueMain ["readme.txt"] (fun _ => ""))
    ∧ (∀ p c, FsAction.write p c ∉ videoMain ["old.yaml"] ["readme.txt"] (fun _ => "")) :=
  claim_C7 ["readme.txt"] ["old.yaml"] (fun _ => "") (fun _ => "") (by decide)

/-- Claim C9 counterexample: rendering, re-parsing and re-rendering a
well-formed two-line body does not reproduce the first rendering — the
rendered HTML contains no heading lines, so the re-parse yields no
sections. -/
theorem claim_C9_cex :
    sectionsHtml (parseDialogue (sectionsHtml (parseDialogue "## A\n**B**: hi")))
      ≠ sectionsHtml (parseDialogue "## A\n**B**: hi") := by
  decide

/-- Claim C9 (corrected): the parse-render round trip is not idempotent.
Whenever the rendered output contains no heading-marker line — true of the
counterexample body, but an explicit hypothesis rather than a general fact:
`rendered_heading_line` shows a body whose rendered fragment does contain
a heading-marker line — re-parsing yields the empty section list,
re-rendering yields the empty fragment, and the round trip therefore
differs from every non-empty first rendering. -/
theorem claim_C9 : ∀ body : String,
    (∀ l ∈ splitNl (sectionsHtml (parseDialogue body)), headingMatch l = none) →
    sectionsHtml (parseDialogue (sectionsHtml (parseDialogue body))) = ""
    ∧ (sectionsHtml (parseDialogue body) ≠ "" →
        sectionsHtml (parseDialogue (sectionsHtml (parseDialogue body)))
          ≠ sectionsHtml (parseDialogue body)) := by
  intro body h
  have h0 : parseDialogue (sectionsHtml (parseDialogue body)) = [] :=
    parseLines_nil_of_no_heading _ h
  refine ⟨by rw [h0]; rfl, ?_⟩
  intro hne
  rw [h0]
  exact fun he => hne he.symm

/-- Claim C9 witness: the round trip on a concrete two-line body collapses
to the empty fragment. -/
theorem claim_C9_witness :
    sectionsHtml (parseDialogue (sectionsHtml (parseDialogue "## A\n**B**: hi"))) = ""
    ∧ (sectionsHtml (parseDialogue "## A\n**B**: hi") ≠ "" →
        sectionsHtml (parseDialogue (sectionsHtml (parseDialogue "## A\n**B**: hi")))
          ≠ sectionsHtml (parseDialogue "## A\n**B**: hi")) :=
  claim_C9 "## A\n**B**: hi" (by decide)

/-- Claim C10 (confirmed): every block belongs to a section opened by a
heading line — lines before the first heading are silently discarded: the
parse of any body is unchanged when the lines preceding the first heading
line are removed (and in particular a body with no heading at all parses
to the empty section list, the case `post = []`). -/
theorem claim_C10 : ∀ pre post : List String,
    (∀ l ∈ pre, headingMatch l = none) →
    parseLines (pre ++ post) = parseLines post :=
  parseLines_skip_pre

/-- C8: within every section the segmenter emits blocks in source order,
and every emitted speech block has a non-empty speaker. The instrumented
parser, whose index erasure is exactly `parseDialogue`, records for every
emitted block a non-empty strictly increasing list of contributing
source-line indices, and the blocks of each section are pairwise ordered:
every line of an earlier block precedes every line of a later block.
Every speech block of the plain parse carries a non-empty speaker string. -/
theorem claim_C8 (body : String) :
    parseDialogue body = (parseDialogueI body).map eraseSec
      ∧ (∀ s ∈ parseDialogueI body,
          (∀ b ∈ s.blocks, idxsOf b ≠ [] ∧ (idxsOf b).Pairwise (· < ·))
            ∧ s.blocks.Pairwise blkLt)
      ∧ ∀ s ∈ parseDialogue body, ∀ b ∈ s.blocks,
          ∀ sp ps, b = Block.speech sp ps → sp ≠ "" := by
  have hsec := parseDialogueI_secOK body
  refine ⟨parseDialogue_eraseI body, ?_, ?_⟩
  · intro s hs
    obtain ⟨hall, hpw⟩ := hsec s hs
    exact ⟨fun b hb => ⟨(hall b hb).1, (hall b hb).2.1⟩, hpw⟩
  · intro s hs b hb sp ps heq
    rw [parseDialogue_eraseI body] at hs
    obtain ⟨sI, hsI, hfs⟩ := List.mem_map.mp hs
    obtain ⟨hall, hpw⟩ := hsec sI hsI
    rw [← hfs] at hb
    have hb2 : b ∈ sI.blocks.map eraseB := hb
    obtain ⟨bI, hbI, hfb⟩ := List.mem_map.mp hb2
    have hok := (hall bI hbI).2.2
    cases bI with
    | speech spi psi ixi =>
      have hfb2 : Block.speech spi psi = b := hfb
      rw [heq] at hfb2
      injection hfb2 with a1 a2
      rw [← a1]
      exact hok spi psi ixi rfl
    | image r ixi =>
      have hfb2 : Block.image r = b := hfb
      rw [heq] at hfb2
      exact nomatch hfb2
    | table lsi ixi =>
      have hfb2 : Block.table lsi = b := hfb
      rw [heq] at hfb2
      exact nomatch hfb2
    | quote tx ixi =>
      have hfb2 : Block.quote tx = b := hfb
      rw [heq] at hfb2
      exact nomatch hfb2

/-- Witness for C8: the claim applied at a concrete dialogue body with a
speech, a table and a quote block. -/
theorem claim_C8_witness :
    parseDialogue "## A\n**ひな**: やあ\n|x|\n|y|\n> q"
      = (parseDialogueI "## A\n**ひな**: やあ\n|x|\n|y|\n> q").map eraseSec :=
  (claim_C8 "## A\n**ひな**: やあ\n|x|\n|y|\n> q").1

/-- Claim C10 witness: a speaker line and a quote line before the first
heading are dropped. -/
theorem claim_C10_witness :
    parseLines (["**B**: x", "> q"] ++ ["## T", "**B**: y"])
      = parseLines ["## T", "**B**: y"] :=
  claim_C10 _ _ (by decide)

end HinaSite
